import Mathlib

/-!
Verification of the make_attendance repository (src/app.py, src/attendance_logic.py).

Python strings are modelled as lists of characters (Str), so that splitting,
trimming and lexicographic comparison are structural and fully computable.
Row dictionaries (pandas rows, Mongo documents) are modelled as association
lists from column name to value; a Mongo sheet document is a structure.
Machine-level concerns (uuid randomness, timestamps) are modelled by explicit
parameters: uuid4 becomes an injective generator indexed by call number.
-/

/-- Python strings, modelled as lists of characters. -/
abbrev Str := List Char

/-- ASCII whitespace, as recognised by Python str.strip / the regex class \s. -/
def isSpaceCh (c : Char) : Bool :=
  c == ' ' || c == '\t' || c == '\n' || c == '\r' || c == '\x0b' || c == '\x0c'

/-- Python str.split(sep) for a one-character separator: splits at every
occurrence and keeps empty pieces; splitting the empty string gives [""]. -/
def splitCh (c : Char) : Str → List Str
  | [] => [[]]
  | x :: xs =>
    match splitCh c xs with
    | [] => [[]]
    | h :: t => if x == c then [] :: h :: t else (x :: h) :: t

/-- Python str.strip(): remove leading and trailing whitespace. -/
def trimS (s : Str) : Str :=
  ((s.dropWhile isSpaceCh).reverse.dropWhile isSpaceCh).reverse

/-- Python string comparison: strict lexicographic order on code points. -/
def ltS : Str → Str → Bool
  | [], [] => false
  | [], _ :: _ => true
  | _ :: _, [] => false
  | a :: as, b :: bs =>
    if a.toNat < b.toNat then true
    else if b.toNat < a.toNat then false
    else ltS as bs

/-- Non-strict Python string comparison. -/
def leS (a b : Str) : Bool := !(ltS b a)

theorem charEqOfToNat {c d : Char} (h : c.toNat = d.toNat) : c = d :=
  Char.eq_of_val_eq (UInt32.ext h)

theorem ltS_irrefl (a : Str) : ltS a a = false := by
  induction a with
  | nil => rfl
  | cons c cs ih => simp [ltS, ih]

theorem ltS_trichotomy (a b : Str) : ltS a b = true ∨ a = b ∨ ltS b a = true := by
  induction a generalizing b with
  | nil => cases b with
    | nil => exact Or.inr (Or.inl rfl)
    | cons d ds => exact Or.inl rfl
  | cons c cs ih =>
    cases b with
    | nil => exact Or.inr (Or.inr rfl)
    | cons d ds =>
      by_cases hlt : c.toNat < d.toNat
      · exact Or.inl (by simp [ltS, hlt])
      · by_cases hgt : d.toNat < c.toNat
        · exact Or.inr (Or.inr (by simp [ltS, hgt]))
        · have hcd : c = d := charEqOfToNat (by omega)
          subst hcd
          rcases ih ds with h | h | h
          · exact Or.inl (by simp [ltS, h])
          · exact Or.inr (Or.inl (by rw [h]))
          · exact Or.inr (Or.inr (by simp [ltS, h]))

theorem ltS_asymm {a b : Str} (h : ltS a b = true) : ltS b a = false := by
  induction a generalizing b with
  | nil => cases b with
    | nil => rfl
    | cons d ds => rfl
  | cons c cs ih =>
    cases b with
    | nil => simp [ltS] at h
    | cons d ds =>
      by_cases hlt : c.toNat < d.toNat
      · simp [ltS]; omega
      · by_cases hgt : d.toNat < c.toNat
        · simp [ltS, hlt, hgt] at h
        · simp [ltS, hlt, hgt] at h ⊢
          exact ih h

theorem ltS_trans {a b c : Str} (hab : ltS a b = true) (hbc : ltS b c = true) :
    ltS a c = true := by
  induction a generalizing b c with
  | nil =>
    cases c with
    | nil => cases b with
      | nil => simp [ltS] at hab
      | cons d ds => simp [ltS] at hbc
    | cons e es => rfl
  | cons x xs ih =>
    cases b with
    | nil => simp [ltS] at hab
    | cons y ys =>
      cases c with
      | nil => simp [ltS] at hbc
      | cons z zs =>
        simp only [ltS] at hab hbc ⊢
        by_cases hxy : x.toNat < y.toNat
        · by_cases hyz : y.toNat < z.toNat
          · have : x.toNat < z.toNat := by omega
            simp [this]
          · by_cases hzy : z.toNat < y.toNat
            · simp [hyz, hzy] at hbc
            · have hy : y.toNat = z.toNat := by omega
              have : x.toNat < z.toNat := by omega
              simp [this]
        · by_cases hyx : y.toNat < x.toNat
          · simp [hxy, hyx] at hab
          · have hxy2 : x.toNat = y.toNat := by omega
            simp [hxy, hyx] at hab
            by_cases hyz : y.toNat < z.toNat
            · have : x.toNat < z.toNat := by omega
              simp [this]
            · by_cases hzy : z.toNat < y.toNat
              · simp [hyz, hzy] at hbc
              · simp [hyz, hzy] at hbc
                have h1 : ¬ x.toNat < z.toNat := by omega
                have h2 : ¬ z.toNat < x.toNat := by omega
                simp [h1, h2]
                exact ih hab hbc

/-- SOURCE attendance_logic.build_attendance lines 115-121: split the cell on
",", strip each token and keep the nonempty ones; split each token on "-" and
strip the parts; a token contributes a (day, start, end) triple exactly when
it splits into 3 parts (no emptiness check is performed on the parts). -/
def parseSessions (cell : Str) : List (Str × Str × Str) :=
  let sessions := ((splitCh ',' cell).map trimS).filter (fun t => !t.isEmpty)
  sessions.filterMap (fun session =>
    match (splitCh '-' session).map trimS with
    | [d, s, e] => some (d, s, e)
    | _ => none)

/-- Modelled from the spec (section 4.1 and claim C3): identical tokenisation,
but a token yields a descriptor only if it splits into exactly 3 NON-EMPTY
trimmed parts. -/
def parseSessionsSpec3NonEmpty (cell : Str) : List (Str × Str × Str) :=
  let sessions := ((splitCh ',' cell).map trimS).filter (fun t => !t.isEmpty)
  sessions.filterMap (fun session =>
    let parts := (splitCh '-' session).map trimS
    if parts.length = 3 ∧ parts.all (fun p => !p.isEmpty) then
      some (parts.getD 0 [], parts.getD 1 [], parts.getD 2 [])
    else none)

/-- Modelled from the spec, amended: a token yields a descriptor exactly when
it splits into 3 trimmed parts, empty parts allowed. -/
def parseSessionsSpecAmended (cell : Str) : List (Str × Str × Str) :=
  let sessions := ((splitCh ',' cell).map trimS).filter (fun t => !t.isEmpty)
  sessions.filterMap (fun session =>
    let parts := (splitCh '-' session).map trimS
    if parts.length = 3 then
      some (parts.getD 0 [], parts.getD 1 [], parts.getD 2 [])
    else none)

/-- C3 counterexample: the token "Monday--3:00" splits into the 3 parts
"Monday", "", "3:00", of which one is empty.  The claim says such a token is
dropped, but the code accepts it (it only checks the part count), producing a
descriptor with an empty start time. -/
theorem c3_counterexample :
    parseSessions "Monday--3:00".data = [("Monday".data, [], "3:00".data)] ∧
    parseSessionsSpec3NonEmpty "Monday--3:00".data = [] := by
  constructor <;> decide

/-- C3 amended: the parser splits on ",", trims tokens and drops empty ones,
splits each token on "-" and trims the parts; a token yields a descriptor if
and only if this gives exactly 3 parts (empty parts are accepted); a 2-part
token such as "Monday-3:00pm" and the empty cell both yield no descriptors. -/
theorem c3_parse_amended :
    (∀ cell : Str, parseSessions cell = parseSessionsSpecAmended cell) ∧
    parseSessions "Monday-3:00pm".data = [] ∧
    parseSessions [] = [] := by
  refine ⟨fun cell => ?_, by decide, by decide⟩
  dsimp only [parseSessions, parseSessionsSpecAmended]
  congr 1
  funext session
  rcases h : (splitCh '-' session).map trimS with _ | ⟨a, _ | ⟨b, _ | ⟨c, _ | ⟨d, l⟩⟩⟩⟩ <;>
    simp [h, List.getD]

/-! ## Row dictionaries and fixed enumerations -/

/-- A row dictionary (pandas row / Mongo array element): association list from
column name to string value.  Lookup takes the first binding; rows built by the
program have distinct keys. -/
abbrev Row := List (Str × Str)

/-- Python dict.get(k, "") / pandas row.get(k, ""). -/
def getS (k : Str) (r : Row) : Str := (List.lookup k r).getD []

def kDay : Str := "Day".data
def kClinic : Str := "Clinic".data
def kTime : Str := "Time".data
def kName : Str := "Name".data
def kAge : Str := "Age".data
def kMemberName : Str := "MemberName".data
def kEmail : Str := "Email".data
def kPhone : Str := "Phone".data
def kComments : Str := "Comments".data
def kFee : Str := "Fee".data
def kRowId : Str := "row_id".data

/-- SOURCE attendance_logic.CLINIC_COLUMNS. -/
def CLINIC_COLUMNS : List (Str × Str) :=
  [("Red Ball Clinic".data, "Red Ball Clinic - Day & Time".data),
   ("Orange Ball Clinic".data, "Orange Ball Clinic - Day & Time".data),
   ("Green Ball Clinic".data, "Green Ball Clinic - Day & Time".data),
   ("Yellow Ball Clinic".data, "Yellow Ball Clinic - Day & Time".data),
   ("High Performance Clinic".data, "High Performance Clinic - Day & Time".data)]

/-- SOURCE attendance_logic.DAY_ORDER. -/
def DAY_ORDER : List Str :=
  ["Monday".data, "Tuesday".data, "Wednesday".data, "Thursday".data, "Friday".data]

/-- SOURCE attendance_logic.CLINIC_ORDER. -/
def CLINIC_ORDER : List Str :=
  ["Red Ball Clinic".data, "Orange Ball Clinic".data, "Green Ball Clinic".data,
   "Yellow Ball Clinic".data, "High Performance Clinic".data]

/-- A pandas DataFrame: a list of column names plus one association list per row. -/
structure Table where
  cols : List Str
  rows : List Row

/-! ## Association-list lookup lemmas -/

theorem lookup_cons_eq (k : Str) (v : Str) (r : Row) :
    List.lookup k ((k, v) :: r) = some v := by
  simp [List.lookup]

theorem lookup_cons_ne {k q : Str} (v : Str) (r : Row) (h : (k == q) = false) :
    List.lookup k ((q, v) :: r) = List.lookup k r := by
  simp [List.lookup, h]

theorem lookup_append (k : Str) (xs ys : Row) :
    List.lookup k (xs ++ ys) =
      match List.lookup k xs with
      | some v => some v
      | none => List.lookup k ys := by
  induction xs with
  | nil => simp [List.lookup]
  | cons p t ih =>
    rcases p with ⟨q, v⟩
    by_cases h : (k == q) = true
    · simp [List.lookup, h]
    · have h2 : (k == q) = false := by simp_all
      simp [List.lookup, h2, ih]

/-! ## The attendance expander (SOURCE attendance_logic.build_attendance) -/

/-- SOURCE build_attendance lines 122-134: the record dict appended for one
parsed session (day, start, end), minus the trailing row_id binding, which the
imperative loop adds with a fresh uuid. -/
def attRowCore (clinic : Str) (dse : Str × Str × Str) (r : Row) : Row :=
  [(kDay, dse.1),
   (kClinic, clinic),
   (kTime, dse.2.1 ++ " - ".data ++ dse.2.2),
   (kName, getS kName r),
   (kAge, getS kAge r),
   (kMemberName, getS kMemberName r),
   (kEmail, getS kEmail r),
   (kPhone, getS kPhone r),
   (kComments, []),
   (kFee, [])]

/-- One iteration of the inner session loop: append the record and advance the
uuid counter (uuid4 is modelled by the generator g applied to the call count). -/
def buildStep (g : Nat → Str) (clinic : Str) (r : Row) (st : List Row × Nat)
    (dse : Str × Str × Str) : List Row × Nat :=
  (st.1 ++ [attRowCore clinic dse r ++ [(kRowId, g st.2)]], st.2 + 1)

/-- SOURCE build_attendance lines 111-121: skip an absent/empty cell, else
parse it and append one record per session. -/
def buildCell (g : Nat → Str) (clinic : Str) (r : Row) (st : List Row × Nat)
    (cell : Str) : List Row × Nat :=
  if cell.isEmpty then st else (parseSessions cell).foldl (buildStep g clinic r) st

/-- SOURCE build_attendance lines 110-134: the per-clinic row loop. -/
def buildClinic (g : Nat → Str) (clinic col : Str) (rows : List Row)
    (st : List Row × Nat) : List Row × Nat :=
  rows.foldl (fun st r => buildCell g clinic r st (getS col r)) st

/-- SOURCE build_attendance lines 104-134: the full records loop over
CLINIC_COLUMNS, skipping clinics whose column is absent from the frame. -/
def buildRecords (g : Nat → Str) (df : Table) : List Row :=
  (CLINIC_COLUMNS.foldl
    (fun st cc => if cc.2 ∈ df.cols then buildClinic g cc.1 cc.2 df.rows st else st)
    ([], 0)).1

/-- One record per parsed session descriptor of each row, in row order. -/
def rowsExpand (clinic col : Str) (rows : List Row) : List Row :=
  rows.foldr
    (fun r acc =>
      ((parseSessions (getS col r)).map (fun dse => attRowCore clinic dse r)) ++ acc)
    []

/-- Modelled from the spec (section 4.3): for each registrant row and each
configured category column present, emit one record per parsed session
descriptor, fields copied, comments and fee empty; row ids are attached
positionally by withIdsFrom. -/
def expandSpec (df : Table) : List Row :=
  CLINIC_COLUMNS.foldr
    (fun cc acc => (if cc.2 ∈ df.cols then rowsExpand cc.1 cc.2 df.rows else []) ++ acc)
    []

/-- Attach fresh row ids positionally, starting at index k. -/
def withIdsFrom (g : Nat → Str) (k : Nat) : List Row → List Row
  | [] => []
  | r :: rs => (r ++ [(kRowId, g k)]) :: withIdsFrom g (k + 1) rs

theorem withIdsFrom_append (g : Nat → Str) (k : Nat) (a b : List Row) :
    withIdsFrom g k (a ++ b) = withIdsFrom g k a ++ withIdsFrom g (k + a.length) b := by
  induction a generalizing k with
  | nil => simp [withIdsFrom]
  | cons r rs ih =>
    simp only [List.cons_append, withIdsFrom, List.append_eq, ih, List.length_cons]
    have h : k + 1 + rs.length = k + (rs.length + 1) := by omega
    rw [h]

theorem length_withIdsFrom (g : Nat → Str) (k : Nat) (l : List Row) :
    (withIdsFrom g k l).length = l.length := by
  induction l generalizing k with
  | nil => rfl
  | cons r rs ih => simp [withIdsFrom, ih]

/-! ## The imperative record loop equals the declarative expansion -/

theorem parseSessions_of_isEmpty {cell : Str} (h : cell.isEmpty = true) :
    parseSessions cell = [] := by
  cases cell with
  | nil => decide
  | cons c cs => simp [List.isEmpty] at h

theorem foldl_buildStep (g : Nat → Str) (clinic : Str) (r : Row)
    (l : List (Str × Str × Str)) (acc : List Row) (k : Nat) :
    l.foldl (buildStep g clinic r) (acc, k) =
      (acc ++ withIdsFrom g k (l.map (fun dse => attRowCore clinic dse r)),
       k + l.length) := by
  induction l generalizing acc k with
  | nil => simp [withIdsFrom]
  | cons dse t ih =>
    simp only [List.foldl_cons, buildStep, List.map_cons, withIdsFrom, List.length_cons]
    rw [ih]
    refine Prod.ext ?_ ?_
    · simp [List.append_assoc]
    · simp; omega

theorem buildCell_eq (g : Nat → Str) (clinic : Str) (r : Row)
    (st : List Row × Nat) (cell : Str) :
    buildCell g clinic r st cell =
      (st.1 ++ withIdsFrom g st.2
         ((parseSessions cell).map (fun dse => attRowCore clinic dse r)),
       st.2 + (parseSessions cell).length) := by
  unfold buildCell
  by_cases h : cell.isEmpty = true
  · simp [h, parseSessions_of_isEmpty h, withIdsFrom]
  · have h2 : cell.isEmpty = false := by simp_all
    rw [h2]
    simp only [Bool.false_eq_true, if_false]
    exact foldl_buildStep g clinic r _ st.1 st.2

theorem buildClinic_eq (g : Nat → Str) (clinic col : Str) (rows : List Row)
    (acc : List Row) (k : Nat) :
    buildClinic g clinic col rows (acc, k) =
      (acc ++ withIdsFrom g k (rowsExpand clinic col rows),
       k + (rowsExpand clinic col rows).length) := by
  induction rows generalizing acc k with
  | nil => simp [buildClinic, rowsExpand, withIdsFrom]
  | cons r t ih =>
    simp only [buildClinic, List.foldl_cons] at ih ⊢
    rw [buildCell_eq]
    rw [ih]
    simp only [rowsExpand, List.foldr_cons]
    rw [withIdsFrom_append]
    refine Prod.ext ?_ ?_
    · simp [List.append_assoc, List.length_map]
    · simp [List.length_map]
      omega

theorem buildRecords_eq_expandSpec (g : Nat → Str) (df : Table) :
    buildRecords g df = withIdsFrom g 0 (expandSpec df) := by
  have main : ∀ (ccs : List (Str × Str)) (acc : List Row) (k : Nat),
      ccs.foldl
        (fun st cc => if cc.2 ∈ df.cols then buildClinic g cc.1 cc.2 df.rows st else st)
        (acc, k) =
      (acc ++ withIdsFrom g k
         (ccs.foldr (fun cc a => (if cc.2 ∈ df.cols then rowsExpand cc.1 cc.2 df.rows else []) ++ a) []),
       k + (ccs.foldr (fun cc a => (if cc.2 ∈ df.cols then rowsExpand cc.1 cc.2 df.rows else []) ++ a) []).length) := by
    intro ccs
    induction ccs with
    | nil => intro acc k; simp [withIdsFrom]
    | cons cc t ih =>
      intro acc k
      simp only [List.foldl_cons, List.foldr_cons]
      by_cases h : cc.2 ∈ df.cols
      · simp only [h, if_true]
        rw [buildClinic_eq, ih]
        rw [withIdsFrom_append]
        refine Prod.ext ?_ ?_
        · simp [List.append_assoc]
        · simp [List.length_append]; omega
      · simp only [h, if_false]
        rw [ih]
        simp
  unfold buildRecords expandSpec
  rw [main CLINIC_COLUMNS [] 0]
  simp


/-! ## Row ids of expanded records -/

theorem lookup_attRowCore_rowId (clinic : Str) (dse : Str × Str × Str) (r : Row) :
    List.lookup kRowId (attRowCore clinic dse r) = none := by
  unfold attRowCore
  rw [lookup_cons_ne _ _ (by decide), lookup_cons_ne _ _ (by decide),
      lookup_cons_ne _ _ (by decide), lookup_cons_ne _ _ (by decide),
      lookup_cons_ne _ _ (by decide), lookup_cons_ne _ _ (by decide),
      lookup_cons_ne _ _ (by decide), lookup_cons_ne _ _ (by decide),
      lookup_cons_ne _ _ (by decide), lookup_cons_ne _ _ (by decide)]
  rfl

theorem lookup_rowId_mem_rowsExpand {clinic col : Str} {rows : List Row} {x : Row}
    (hx : x ∈ rowsExpand clinic col rows) : List.lookup kRowId x = none := by
  induction rows with
  | nil => simp [rowsExpand] at hx
  | cons r t ih =>
    rcases List.mem_append.mp hx with h | h
    · rcases List.mem_map.mp h with ⟨dse, _, rfl⟩
      exact lookup_attRowCore_rowId _ _ _
    · exact ih h

theorem lookup_rowId_mem_expandSpec {df : Table} {x : Row} (hx : x ∈ expandSpec df) :
    List.lookup kRowId x = none := by
  unfold expandSpec at hx
  generalize CLINIC_COLUMNS = ccs at hx
  induction ccs with
  | nil => simp at hx
  | cons cc t ih =>
    rcases List.mem_append.mp hx with h | h
    · by_cases hc : cc.2 ∈ df.cols
      · rw [if_pos hc] at h
        exact lookup_rowId_mem_rowsExpand h
      · rw [if_neg hc] at h
        simp at h
    · exact ih h

theorem map_lookup_rowId_withIdsFrom (g : Nat → Str) (k : Nat) (l : List Row)
    (h : ∀ r ∈ l, List.lookup kRowId r = none) :
    (withIdsFrom g k l).map (fun r => List.lookup kRowId r) =
      (List.range l.length).map (fun i => some (g (k + i))) := by
  induction l generalizing k with
  | nil => rfl
  | cons r t ih =>
    simp only [withIdsFrom, List.map_cons, List.length_cons]
    have h1 : List.lookup kRowId (r ++ [(kRowId, g k)]) = some (g k) := by
      rw [lookup_append, h r (List.mem_cons_self r t)]
      simp [List.lookup]
    rw [h1, ih (k + 1) (fun q hq => h q (List.mem_cons_of_mem _ hq))]
    rw [List.range_succ_eq_map]
    simp only [List.map_cons, List.map_map, Nat.add_zero]
    refine congrArg₂ _ rfl ?_
    apply List.map_congr_left
    intro a _
    simp only [Function.comp, Nat.succ_eq_add_one]
    congr 2
    omega

/-- The registrant table from spec test 3: one registrant with two Red Ball
sessions on Monday and one Green Ball session on Friday. -/
def c5df : Table :=
  ⟨["Name".data, "Red Ball Clinic - Day & Time".data, "Green Ball Clinic - Day & Time".data],
   [[("Name".data, "Alice".data),
     ("Red Ball Clinic - Day & Time".data,
      "Monday - 1:00 - 2:00, Monday - 2:00 - 3:00".data),
     ("Green Ball Clinic - Day & Time".data, "Friday - 9:00 - 10:00".data)]]⟩

/-- A concrete injective uuid supply. -/
def c5g : Nat → Str := fun n => 'u' :: List.replicate n 'x'

/-- C5: expansion emits exactly one record per parsed session descriptor of
each row and each configured clinic column, with time "start - end", day and
clinic from the descriptor/configuration, registrant fields copied, comments
and fee empty (buildRecords equals the spec-side expansion with positional
fresh row ids); an empty cell contributes zero records; generated row ids are
pairwise distinct when the uuid supply is injective; and the two-Red-one-Green
example expands to exactly 3 records. -/
theorem c5_expansion_fanout :
    (∀ (g : Nat → Str) (df : Table),
        buildRecords g df = withIdsFrom g 0 (expandSpec df)) ∧
    (∀ (g : Nat → Str) (clinic : Str) (r : Row) (st : List Row × Nat),
        buildCell g clinic r st [] = st) ∧
    (∀ (g : Nat → Str) (df : Table),
        (∀ i, i < (expandSpec df).length → ∀ j, j < (expandSpec df).length →
          g i = g j → i = j) →
        ((buildRecords g df).map (fun r => List.lookup kRowId r)).Nodup) ∧
    ((buildRecords c5g c5df).length = 3 ∧
     (buildRecords c5g c5df).map (fun r => List.lookup kDay r) =
       [some "Monday".data, some "Monday".data, some "Friday".data] ∧
     (buildRecords c5g c5df).map (fun r => List.lookup kClinic r) =
       [some "Red Ball Clinic".data, some "Red Ball Clinic".data,
        some "Green Ball Clinic".data] ∧
     (buildRecords c5g c5df).map (fun r => List.lookup kTime r) =
       [some "1:00 - 2:00".data, some "2:00 - 3:00".data, some "9:00 - 10:00".data]) := by
  refine ⟨buildRecords_eq_expandSpec, fun g clinic r st => rfl, ?_, by decide⟩
  intro g df hg
  rw [buildRecords_eq_expandSpec,
      map_lookup_rowId_withIdsFrom g 0 _ (fun r hr => lookup_rowId_mem_expandSpec hr)]
  refine List.Nodup.map_on ?_ (List.nodup_range _)
  intro x hx y hy hxy
  simp only [List.mem_range] at hx hy
  have := Option.some.inj hxy
  simp only [Nat.zero_add] at this
  exact hg x hx y hy this

/-- C5 witness: the hypotheses of the distinct-row-ids part hold for the
concrete example table and uuid supply. -/
theorem c5_witness :
    ((buildRecords c5g c5df).map (fun r => List.lookup kRowId r)).Nodup :=
  c5_expansion_fanout.2.2.1 c5g c5df (by decide)

/-! ## Canonical ordering (SOURCE build_attendance lines 142-145):
pandas sorts by Day and Clinic categorical codes (unrecognized becomes NaN and
is placed last, modelled as index = list length), then Time and Name as plain
Python strings.  The multi-key sort is stable, so any stable sort by the
lexicographic key is a faithful model; we use insertion sort. -/

/-- Python strings as an ordered type (code-point lexicographic order). -/
structure PyStr where
  chars : Str
deriving DecidableEq

instance : LinearOrder PyStr where
  lt a b := ltS a.chars b.chars = true
  le a b := ltS b.chars a.chars = false
  le_refl a := ltS_irrefl a.chars
  le_trans a b c hab hbc := by
    have hab2 : ltS b.chars a.chars = false := hab
    have hbc2 : ltS c.chars b.chars = false := hbc
    show ltS c.chars a.chars = false
    cases hca : ltS c.chars a.chars with
    | false => rfl
    | true =>
      rcases ltS_trichotomy b.chars c.chars with h1 | h1 | h1
      · rw [ltS_trans h1 hca] at hab2; simp at hab2
      · rw [h1, hca] at hab2; simp at hab2
      · rw [h1] at hbc2; simp at hbc2
  le_antisymm a b hab hba := by
    have hab2 : ltS b.chars a.chars = false := hab
    have hba2 : ltS a.chars b.chars = false := hba
    rcases ltS_trichotomy a.chars b.chars with h1 | h1 | h1
    · rw [h1] at hba2; simp at hba2
    · cases a; cases b; simpa using h1
    · rw [h1] at hab2; simp at hab2
  le_total a b := by
    rcases ltS_trichotomy a.chars b.chars with h1 | h1 | h1
    · exact Or.inl (show ltS b.chars a.chars = false from ltS_asymm h1)
    · exact Or.inl (show ltS b.chars a.chars = false by rw [← h1, ltS_irrefl])
    · exact Or.inr (show ltS a.chars b.chars = false from ltS_asymm h1)
  lt_iff_le_not_le a b := by
    constructor
    · intro h
      have h2 : ltS a.chars b.chars = true := h
      exact ⟨show ltS b.chars a.chars = false from ltS_asymm h2,
             fun hc => by rw [show ltS a.chars b.chars = false from hc] at h2; simp at h2⟩
    · rintro ⟨h1, h2⟩
      show ltS a.chars b.chars = true
      cases h3 : ltS a.chars b.chars with
      | false => exact absurd h3 h2
      | true => rfl
  decidableLE a b := instDecidableEqBool _ _

/-- pandas Categorical code of a Day value: its index in DAY_ORDER; an
unrecognized day becomes NaN, which sorts after every real code, modelled as
index = 5 (what findIdx returns on no match). -/
def dayIdx (d : Str) : Nat := DAY_ORDER.findIdx (fun x => x == d)

/-- pandas Categorical code of a Clinic value, same convention. -/
def clinicIdx (c : Str) : Nat := CLINIC_ORDER.findIdx (fun x => x == c)

/-- The lexicographic sort key (Day code, Clinic code, Time, Name). -/
abbrev PyKey := ℕ ×ₗ ℕ ×ₗ PyStr ×ₗ PyStr

def sortKeyL (r : Row) : PyKey :=
  toLex (dayIdx (getS kDay r),
    toLex (clinicIdx (getS kClinic r),
      toLex ((⟨getS kTime r⟩ : PyStr), (⟨getS kName r⟩ : PyStr))))

def rowle (a b : Row) : Prop := sortKeyL a ≤ sortKeyL b

instance rowleDecidable : DecidableRel rowle := fun a b =>
  inferInstanceAs (Decidable (sortKeyL a ≤ sortKeyL b))

instance rowleTotal : IsTotal Row rowle := ⟨fun a b => le_total (sortKeyL a) (sortKeyL b)⟩

instance rowleTrans : IsTrans Row rowle := ⟨fun _ _ _ hab hbc => le_trans hab hbc⟩

/-- Stable sort by the canonical key: models the stable pandas
sort_values(["Day", "Clinic", "Time", "Name"]). -/
def sortRecords (l : List Row) : List Row := List.insertionSort rowle l

/-- pandas DataFrame(records) column inference: dict keys in order of first
appearance across the records. -/
def columnsOf (rows : List Row) : List Str :=
  rows.foldl
    (fun acc r =>
      (r.map Prod.fst).foldl (fun acc k => if k ∈ acc then acc else acc ++ [k]) acc)
    []

/-- SOURCE build_attendance lines 137-140: the explicit column list used for
an empty expansion (also the column set of every nonempty expansion). -/
def fixedCols : List Str :=
  [kDay, kClinic, kTime, kName, kAge, kMemberName, kEmail, kPhone, kComments, kFee, kRowId]

/-- SOURCE attendance_logic.build_attendance (whole function): expand the
signup table, then return either the fixed empty frame or the sorted records
with the inferred columns. -/
def build_attendance (g : Nat → Str) (df : Table) : Table :=
  let recs := buildRecords g df
  if recs.isEmpty then ⟨fixedCols, []⟩
  else ⟨columnsOf recs, sortRecords recs⟩

/-! ## Claim C6: canonical ordering -/

theorem dayIdx_recognized_lt {d d2 : Str} (hd : d ∈ DAY_ORDER) (hd2 : d2 ∉ DAY_ORDER) :
    dayIdx d < dayIdx d2 := by
  have hne : ∀ x, x ∈ DAY_ORDER → (x == d2) = false := by
    intro x hx
    rw [beq_eq_false_iff_ne]
    intro h
    exact hd2 (h ▸ hx)
  have h5 : dayIdx d2 = 5 := by
    unfold dayIdx DAY_ORDER
    simp [List.findIdx_cons,
      hne "Monday".data (by decide), hne "Tuesday".data (by decide),
      hne "Wednesday".data (by decide), hne "Thursday".data (by decide),
      hne "Friday".data (by decide)]
  rw [h5]
  fin_cases hd <;> decide

theorem clinicIdx_recognized_lt {c c2 : Str} (hc : c ∈ CLINIC_ORDER)
    (hc2 : c2 ∉ CLINIC_ORDER) : clinicIdx c < clinicIdx c2 := by
  have hne : ∀ x, x ∈ CLINIC_ORDER → (x == c2) = false := by
    intro x hx
    rw [beq_eq_false_iff_ne]
    intro h
    exact hc2 (h ▸ hx)
  have h5 : clinicIdx c2 = 5 := by
    unfold clinicIdx CLINIC_ORDER
    simp [List.findIdx_cons,
      hne "Red Ball Clinic".data (by decide), hne "Orange Ball Clinic".data (by decide),
      hne "Green Ball Clinic".data (by decide), hne "Yellow Ball Clinic".data (by decide),
      hne "High Performance Clinic".data (by decide)]
  rw [h5]
  fin_cases hc <;> decide

/-- The strict key order used to show sorted outputs are unique. -/
def rowlt (a b : Row) : Prop := sortKeyL a < sortKeyL b

theorem sortRecords_eq_of_perm {l1 l2 : List Row} (hp : l1.Perm l2)
    (hk : List.Pairwise (fun a b => sortKeyL a ≠ sortKeyL b) l1) :
    sortRecords l1 = sortRecords l2 := by
  haveI : IsAntisymm Row rowlt := ⟨fun a b h1 h2 => ((lt_asymm h1) h2).elim⟩
  have hsymm : Symmetric (fun a b : Row => sortKeyL a ≠ sortKeyL b) :=
    fun a b h => fun e => h e.symm
  have hk2 : List.Pairwise (fun a b => sortKeyL a ≠ sortKeyL b) l2 :=
    (hp.pairwise_iff (fun {a b} h => hsymm h)).mp hk
  have sorted_strict : ∀ (l : List Row),
      List.Pairwise (fun a b => sortKeyL a ≠ sortKeyL b) l →
      List.Sorted rowlt (sortRecords l) := by
    intro l hl
    have hs : List.Sorted rowle (sortRecords l) := List.sorted_insertionSort rowle l
    have hne : List.Pairwise (fun a b => sortKeyL a ≠ sortKeyL b) (sortRecords l) :=
      (((List.perm_insertionSort rowle l).symm).pairwise_iff (fun {a b} h => hsymm h)).mp hl
    exact (hs.and hne).imp (fun h => lt_of_le_of_ne h.1 h.2)
  refine List.eq_of_perm_of_sorted ?_ (sorted_strict l1 hk) (sorted_strict l2 hk2)
  exact ((List.perm_insertionSort rowle l1).trans hp).trans
    (List.perm_insertionSort rowle l2).symm

/-- C6 counterexample: two records that agree on all four sort keys (Day,
Clinic, Time, Name) but differ in Phone.  The stable sort keeps input order
among full-key ties, so the sorted result depends on the input order,
refuting "total order" on records and "same result regardless of input
order". -/
theorem c6_counterexample :
    sortRecords
        [[(kDay, "Monday".data), (kClinic, "Red Ball Clinic".data),
          (kTime, "1:00 - 2:00".data), (kName, "A".data), (kPhone, "1".data)],
         [(kDay, "Monday".data), (kClinic, "Red Ball Clinic".data),
          (kTime, "1:00 - 2:00".data), (kName, "A".data), (kPhone, "2".data)]] ≠
      sortRecords
        [[(kDay, "Monday".data), (kClinic, "Red Ball Clinic".data),
          (kTime, "1:00 - 2:00".data), (kName, "A".data), (kPhone, "2".data)],
         [(kDay, "Monday".data), (kClinic, "Red Ball Clinic".data),
          (kTime, "1:00 - 2:00".data), (kName, "A".data), (kPhone, "1".data)]] := by
  decide

/-- C6 amended: the canonical ordering is the total preorder on records given
by the key (day position, clinic position, time string, name string); any
unrecognized day or clinic sorts after all recognized ones; sorting returns a
permutation of the input that is sorted for this preorder; the sorted result
is the same regardless of input order whenever the records have pairwise
distinct sort keys (full-key ties keep input order); and on the example
records Monday precedes Tuesday and, within Monday, Red Ball Clinic precedes
Green Ball Clinic. -/
theorem c6_ordering_amended :
    (∀ l : List Row, (sortRecords l).Perm l) ∧
    (∀ l : List Row, List.Sorted rowle (sortRecords l)) ∧
    (∀ d d2 : Str, d ∈ DAY_ORDER → d2 ∉ DAY_ORDER → dayIdx d < dayIdx d2) ∧
    (∀ c c2 : Str, c ∈ CLINIC_ORDER → c2 ∉ CLINIC_ORDER → clinicIdx c < clinicIdx c2) ∧
    (∀ l1 l2 : List Row, l1.Perm l2 →
      List.Pairwise (fun a b => sortKeyL a ≠ sortKeyL b) l1 →
      sortRecords l1 = sortRecords l2) ∧
    (sortRecords
        [[(kDay, "Tuesday".data), (kClinic, "Orange Ball Clinic".data)],
         [(kDay, "Monday".data), (kClinic, "Green Ball Clinic".data)],
         [(kDay, "Monday".data), (kClinic, "Red Ball Clinic".data)]] =
       [[(kDay, "Monday".data), (kClinic, "Red Ball Clinic".data)],
        [(kDay, "Monday".data), (kClinic, "Green Ball Clinic".data)],
        [(kDay, "Tuesday".data), (kClinic, "Orange Ball Clinic".data)]] ∧
     sortRecords
        [[(kDay, "Monday".data), (kClinic, "Green Ball Clinic".data)],
         [(kDay, "Monday".data), (kClinic, "Red Ball Clinic".data)],
         [(kDay, "Tuesday".data), (kClinic, "Orange Ball Clinic".data)]] =
       [[(kDay, "Monday".data), (kClinic, "Red Ball Clinic".data)],
        [(kDay, "Monday".data), (kClinic, "Green Ball Clinic".data)],
        [(kDay, "Tuesday".data), (kClinic, "Orange Ball Clinic".data)]]) :=
  ⟨fun l => List.perm_insertionSort rowle l,
   fun l => List.sorted_insertionSort rowle l,
   fun _ _ hd hd2 => dayIdx_recognized_lt hd hd2,
   fun _ _ hc hc2 => clinicIdx_recognized_lt hc hc2,
   fun _ _ hp hk => sortRecords_eq_of_perm hp hk,
   by decide, by decide⟩

/-- C6 witness: the hypotheses of the amended ordering theorem hold at
concrete inputs: Monday is recognized and Caturday is not; two permuted
two-record lists with distinct keys sort identically. -/
theorem c6_witness :
    dayIdx "Monday".data < dayIdx "Caturday".data ∧
    clinicIdx "Red Ball Clinic".data < clinicIdx "Cat Clinic".data ∧
    sortRecords
        [[(kDay, "Tuesday".data)], [(kDay, "Monday".data)]] =
      sortRecords
        [[(kDay, "Monday".data)], [(kDay, "Tuesday".data)]] :=
  ⟨c6_ordering_amended.2.2.1 _ _ (by decide) (by decide),
   c6_ordering_amended.2.2.2.1 _ _ (by decide) (by decide),
   c6_ordering_amended.2.2.2.2.1 _ _ (by decide) (by decide)⟩

/-! ## Roster exporter (SOURCE attendance_logic.export_attendance_sheets) -/

/-- SOURCE attendance_logic.BINDER_COLUMNS / line 167 column selection. -/
def BINDER_COLUMNS : List Str := [kRowId, kName, kAge, kMemberName, kComments, kFee]

/-- SOURCE line 167-169: the binder projection of one record: exactly the six
fixed columns; a missing value renders as "" (fillna). -/
def projectRow (r : Row) : Row := BINDER_COLUMNS.map (fun c => (c, getS c r))

/-- Python clinic.replace(" ", ""). -/
def removeSpaces (s : Str) : Str := s.filter (fun c => !(c == ' '))

/-- The f-string day_ClinicNoSpaces.csv of line 164. -/
def fnameFor (day clinic : Str) : Str :=
  day ++ ('_' :: removeSpaces clinic) ++ ".csv".data

/-- The rows of one (day, clinic) group of the frame. -/
def matchDC (day clinic : Str) (att : List Row) : List Row :=
  att.filter (fun r => getS kDay r == day && getS kClinic r == clinic)

/-- Inner loop of the groupby: one file per nonempty clinic group of a day. -/
def exportClinicFold (att : List Row) (day : Str) (cs : List Str)
    (acc : List (Str × List Row)) : List (Str × List Row) :=
  cs.foldr
    (fun clinic acc2 =>
      if (matchDC day clinic att).isEmpty then acc2
      else (fnameFor day clinic, (matchDC day clinic att).map projectRow) :: acc2)
    acc

/-- SOURCE export_attendance_sheets lines 157-170: pandas groupby on the two
ordered categoricals enumerates the observed (day, clinic) groups in
categorical order and drops NaN keys, i.e. groups whose Day (or Clinic) is not
one of the recognized values; the code additionally skips NaN days explicitly.
Result: one binder CSV (filename, projected rows) per nonempty recognized
group. -/
def export_attendance_sheets (att : List Row) : List (Str × List Row) :=
  DAY_ORDER.foldr (fun day acc => exportClinicFold att day CLINIC_ORDER acc) []

theorem mem_exportClinicFold {att : List Row} {day : Str} {cs : List Str}
    {acc : List (Str × List Row)} {p : Str × List Row} :
    p ∈ exportClinicFold att day cs acc ↔
      (∃ clinic ∈ cs, matchDC day clinic att ≠ [] ∧
        p = (fnameFor day clinic, (matchDC day clinic att).map projectRow)) ∨
      p ∈ acc := by
  induction cs with
  | nil => simp [exportClinicFold]
  | cons c t ih =>
    simp only [exportClinicFold, List.foldr_cons] at ih ⊢
    by_cases h : (matchDC day c att).isEmpty = true
    · rw [if_pos h, ih]
      have hempty : matchDC day c att = [] := List.isEmpty_iff.mp h
      constructor
      · rintro (⟨clinic, hcl, hne, hp⟩ | hp)
        · exact Or.inl ⟨clinic, List.mem_cons_of_mem _ hcl, hne, hp⟩
        · exact Or.inr hp
      · rintro (⟨clinic, hcl, hne, hp⟩ | hp)
        · rcases List.mem_cons.mp hcl with hc | hc
          · exact absurd (hc ▸ hempty) hne
          · exact Or.inl ⟨clinic, hc, hne, hp⟩
        · exact Or.inr hp
    · rw [if_neg h]
      have hne : matchDC day c att ≠ [] := fun he => h (by rw [he]; rfl)
      constructor
      · intro hp
        rcases List.mem_cons.mp hp with hc | hc
        · exact Or.inl ⟨c, List.mem_cons_self c t, hne, hc⟩
        · rcases ih.mp hc with ⟨clinic, hcl, hne2, hp2⟩ | hp2
          · exact Or.inl ⟨clinic, List.mem_cons_of_mem _ hcl, hne2, hp2⟩
          · exact Or.inr hp2
      · rintro (⟨clinic, hcl, hne2, hp2⟩ | hp2)
        · rcases List.mem_cons.mp hcl with hc | hc
          · subst hc
            rw [hp2]
            exact List.mem_cons_self _ _
          · exact List.mem_cons_of_mem _ (ih.mpr (Or.inl ⟨clinic, hc, hne2, hp2⟩))
        · exact List.mem_cons_of_mem _ (ih.mpr (Or.inr hp2))

theorem mem_export_iff {att : List Row} {p : Str × List Row} :
    p ∈ export_attendance_sheets att ↔
      ∃ day ∈ DAY_ORDER, ∃ clinic ∈ CLINIC_ORDER, matchDC day clinic att ≠ [] ∧
        p = (fnameFor day clinic, (matchDC day clinic att).map projectRow) := by
  have aux : ∀ ds : List Str,
      p ∈ ds.foldr (fun day acc => exportClinicFold att day CLINIC_ORDER acc) [] ↔
        ∃ day ∈ ds, ∃ clinic ∈ CLINIC_ORDER, matchDC day clinic att ≠ [] ∧
          p = (fnameFor day clinic, (matchDC day clinic att).map projectRow) := by
    intro ds
    induction ds with
    | nil => simp
    | cons d t ih =>
      simp only [List.foldr_cons]
      rw [mem_exportClinicFold, ih]
      constructor
      · rintro (⟨clinic, hcl, hne, hp⟩ | ⟨day, hd, rest⟩)
        · exact ⟨d, List.mem_cons_self d t, clinic, hcl, hne, hp⟩
        · exact ⟨day, List.mem_cons_of_mem _ hd, rest⟩
      · rintro ⟨day, hd, clinic, hcl, hne, hp⟩
        rcases List.mem_cons.mp hd with h | h
        · subst h
          exact Or.inl ⟨clinic, hcl, hne, hp⟩
        · exact Or.inr ⟨day, h, clinic, hcl, hne, hp⟩
  exact aux DAY_ORDER

theorem lookup_map_pair_mem {c : Str} {ks : List Str} {f : Str → Str} (hc : c ∈ ks) :
    List.lookup c (ks.map (fun k => (k, f k))) = some (f c) := by
  induction ks with
  | nil => exact absurd hc (List.not_mem_nil c)
  | cons k t ih =>
    simp only [List.map_cons]
    by_cases h : c = k
    · subst h
      exact lookup_cons_eq _ _ _
    · rw [lookup_cons_ne _ _ (by rw [beq_eq_false_iff_ne]; exact h)]
      refine ih ?_
      rcases List.mem_cons.mp hc with h2 | h2
      · exact absurd h2 h
      · exact h2

theorem lookup_map_pair_not_mem {c : Str} {ks : List Str} {f : Str → Str} (hc : c ∉ ks) :
    List.lookup c (ks.map (fun k => (k, f k))) = none := by
  induction ks with
  | nil => rfl
  | cons k t ih =>
    simp only [List.map_cons]
    rw [lookup_cons_ne _ _
      (by rw [beq_eq_false_iff_ne]; intro h; exact hc (h ▸ List.mem_cons_self k t))]
    exact ih (fun hm => hc (List.mem_cons_of_mem _ hm))

/-- All 25 potential binder filenames, in groupby order. -/
def exportAllNames : List Str :=
  DAY_ORDER.foldr (fun day acc => CLINIC_ORDER.map (fnameFor day) ++ acc) []

theorem map_fst_exportClinicFold (att : List Row) (day : Str) (cs : List Str)
    (acc : List (Str × List Row)) :
    List.Sublist ((exportClinicFold att day cs acc).map Prod.fst)
      (cs.map (fnameFor day) ++ acc.map Prod.fst) := by
  induction cs with
  | nil => simp [exportClinicFold]
  | cons c t ih =>
    simp only [exportClinicFold, List.foldr_cons] at ih ⊢
    by_cases h : (matchDC day c att).isEmpty = true
    · rw [if_pos h]
      simp only [List.map_cons, List.cons_append]
      exact List.Sublist.cons _ ih
    · rw [if_neg h]
      simp only [List.map_cons, List.cons_append]
      exact List.Sublist.cons₂ _ ih

theorem export_filenames_nodup (att : List Row) :
    ((export_attendance_sheets att).map Prod.fst).Nodup := by
  have aux : ∀ ds : List Str,
      List.Sublist
        ((ds.foldr (fun day acc => exportClinicFold att day CLINIC_ORDER acc) []).map
          Prod.fst)
        (ds.foldr (fun day acc => CLINIC_ORDER.map (fnameFor day) ++ acc) []) := by
    intro ds
    induction ds with
    | nil => simp
    | cons d t ih =>
      simp only [List.foldr_cons]
      refine (map_fst_exportClinicFold att d CLINIC_ORDER _).trans ?_
      exact List.Sublist.append_left ih _
  have hnd : (DAY_ORDER.foldr (fun day acc => CLINIC_ORDER.map (fnameFor day) ++ acc)
      []).Nodup := by decide
  exact List.Nodup.sublist (aux DAY_ORDER) hnd

/-- The record used in the C7 counterexample: it carries the ad-hoc column
2025-09-10 with value x. -/
def c7row : Row :=
  [(kRowId, "r1".data), (kDay, "Monday".data), (kClinic, "Red Ball Clinic".data),
   (kName, "A".data), ("2025-09-10".data, "x".data)]

/-- C7 counterexample: exporting a group whose record has the ad-hoc column
2025-09-10 produces a row WITHOUT that column (the binder projection keeps
only the six fixed columns), refuting "followed by all ad-hoc extra columns"
and "every row carries every ad-hoc column of the group". -/
theorem c7_counterexample :
    List.lookup "2025-09-10".data c7row = some "x".data ∧
    export_attendance_sheets [c7row] =
      [(fnameFor "Monday".data "Red Ball Clinic".data, [projectRow c7row])] ∧
    List.lookup "2025-09-10".data (projectRow c7row) = none := by
  refine ⟨by decide, by decide, by decide⟩

/-- C7 amended: the per-group roster export produces, for every exported row,
exactly the six fixed columns row_id, Name, Age, MemberName (guardian),
Comments, Fee, in that order; ad-hoc extra columns are not exported (Option A
in the source); each exported value is the stored value, with a missing value
rendered as the empty string; and every exported row is the projection of a
record of the input group. -/
theorem c7_export_amended :
    (∀ (att : List Row) (p : Str × List Row), p ∈ export_attendance_sheets att →
      ∀ q ∈ p.2, ∃ rec, rec ∈ att ∧ q = projectRow rec) ∧
    (∀ rec : Row, (projectRow rec).map Prod.fst = BINDER_COLUMNS) ∧
    (∀ rec : Row, ∀ c ∈ BINDER_COLUMNS,
      List.lookup c (projectRow rec) = some (getS c rec)) ∧
    (∀ (rec : Row) (c : Str), c ∉ BINDER_COLUMNS →
      List.lookup c (projectRow rec) = none) := by
  refine ⟨?_, ?_, ?_, ?_⟩
  · intro att p hp q hq
    rcases mem_export_iff.mp hp with ⟨day, _, clinic, _, _, rfl⟩
    rcases List.mem_map.mp hq with ⟨rec, hrec, rfl⟩
    exact ⟨rec, List.mem_of_mem_filter hrec, rfl⟩
  · intro rec
    rfl
  · intro rec c hc
    exact lookup_map_pair_mem hc
  · intro rec c hc
    exact lookup_map_pair_not_mem hc

/-- C7 witness: the amended export theorem applied to the concrete
one-record group. -/
theorem c7_witness :
    (∃ rec, rec ∈ [c7row] ∧ projectRow c7row = projectRow rec) ∧
    List.lookup kName (projectRow c7row) = some (getS kName c7row) ∧
    List.lookup "2025-09-10".data (projectRow c7row) = none :=
  ⟨c7_export_amended.1 [c7row]
      (fnameFor "Monday".data "Red Ball Clinic".data, [projectRow c7row])
      (by decide) (projectRow c7row) (by decide),
   c7_export_amended.2.2.1 c7row kName (by decide),
   c7_export_amended.2.2.2 c7row "2025-09-10".data (by decide)⟩

/-- C10: the per-group roster export emits one file per nonempty recognized
(Day, Clinic) group: every emitted file belongs to a recognized day and
clinic and holds exactly the projections of that group; every nonempty
recognized group gets its file; filenames are pairwise distinct; every
exported row comes from a record whose Day and Clinic are recognized (so a
record with an unrecognized Day is written to no file); yet every expanded
record, recognized or not, is retained in the sorted attendance table. -/
theorem c10_export_skips_unrecognized :
    (∀ (att : List Row) (p : Str × List Row), p ∈ export_attendance_sheets att →
      ∃ day ∈ DAY_ORDER, ∃ clinic ∈ CLINIC_ORDER,
        matchDC day clinic att ≠ [] ∧
        p = (fnameFor day clinic, (matchDC day clinic att).map projectRow)) ∧
    (∀ (att : List Row) (day clinic : Str), day ∈ DAY_ORDER → clinic ∈ CLINIC_ORDER →
      matchDC day clinic att ≠ [] →
      (fnameFor day clinic, (matchDC day clinic att).map projectRow) ∈
        export_attendance_sheets att) ∧
    (∀ att : List Row, ((export_attendance_sheets att).map Prod.fst).Nodup) ∧
    (∀ (att : List Row) (p : Str × List Row), p ∈ export_attendance_sheets att →
      ∀ q ∈ p.2, ∃ rec, rec ∈ att ∧ q = projectRow rec ∧
        getS kDay rec ∈ DAY_ORDER ∧ getS kClinic rec ∈ CLINIC_ORDER) ∧
    (∀ (g : Nat → Str) (df : Table) (r : Row), r ∈ buildRecords g df →
      r ∈ (build_attendance g df).rows) := by
  refine ⟨?_, ?_, export_filenames_nodup, ?_, ?_⟩
  · intro att p hp
    exact mem_export_iff.mp hp
  · intro att day clinic hd hc hne
    exact mem_export_iff.mpr ⟨day, hd, clinic, hc, hne, rfl⟩
  · intro att p hp q hq
    rcases mem_export_iff.mp hp with ⟨day, hd, clinic, hc, _, rfl⟩
    rcases List.mem_map.mp hq with ⟨rec, hrec, rfl⟩
    have hm := List.mem_filter.mp hrec
    have hand := hm.2
    rw [Bool.and_eq_true] at hand
    rcases hand with ⟨h1, h2⟩
    have e1 : getS kDay rec = day := by
      have := eq_of_beq h1
      exact this
    have e2 : getS kClinic rec = clinic := by
      have := eq_of_beq h2
      exact this
    exact ⟨rec, hm.1, rfl, e1 ▸ hd, e2 ▸ hc⟩
  · intro g df r hr
    have hne : (buildRecords g df).isEmpty = false := by
      cases h : (buildRecords g df).isEmpty
      · rfl
      · rw [List.isEmpty_iff.mp h] at hr
        exact absurd hr (List.not_mem_nil r)
    unfold build_attendance
    simp only [hne, Bool.false_eq_true, if_false]
    exact ((List.perm_insertionSort rowle (buildRecords g df)).mem_iff).mpr hr

/-- The attendance table used in the C10 witness: one Saturday record (not a
recognized day) and one Monday record. -/
def c10att : List Row :=
  [[(kDay, "Saturday".data), (kClinic, "Red Ball Clinic".data), (kName, "S".data)],
   [(kDay, "Monday".data), (kClinic, "Red Ball Clinic".data), (kName, "M".data)]]

/-- The first record of the C5 example expansion, written out. -/
def c10rec : Row :=
  [(kDay, "Monday".data), (kClinic, "Red Ball Clinic".data),
   (kTime, "1:00 - 2:00".data), (kName, "Alice".data), (kAge, []),
   (kMemberName, []), (kEmail, []), (kPhone, []), (kComments, []), (kFee, []),
   (kRowId, "u".data)]

/-- C10 witness: the export theorem applied at concrete inputs: the Monday
group of c10att is exported, and the concrete expanded record is retained in
the sorted table. -/
theorem c10_witness :
    (fnameFor "Monday".data "Red Ball Clinic".data,
      (matchDC "Monday".data "Red Ball Clinic".data c10att).map projectRow) ∈
        export_attendance_sheets c10att ∧
    c10rec ∈ (build_attendance c5g c5df).rows :=
  ⟨c10_export_skips_unrecognized.2.1 c10att "Monday".data "Red Ball Clinic".data
      (by decide) (by decide) (by decide),
   c10_export_skips_unrecognized.2.2.2.2 c5g c5df c10rec (by decide)⟩

/-! ## Mongo storage model (SOURCE app.py) -/

/-- A document of the sheets collection. -/
structure Sheet where
  filename : Str
  rows : List Row
  dynamic_columns : List Str
  session : Str
  created_at : Nat
deriving DecidableEq

/-- The sheets collection in natural (insertion) order. -/
abbrev Db := List Sheet

/-- Mongo filter of get_sheet_for_clinic (app.py line 148), an $elemMatch:
some single array element has Day = day and Clinic = clinic. -/
def elemMatchB (day clinic : Str) (s : Sheet) : Bool :=
  s.rows.any (fun r =>
    (List.lookup kDay r == some day) && (List.lookup kClinic r == some clinic))

/-- Mongo dotted filter rows.Day = day, rows.Clinic = clinic (app.py lines
219 and 232): SOME element has Day = day and SOME possibly different element
has Clinic = clinic. -/
def filterMatchB (day clinic : Str) (s : Sheet) : Bool :=
  s.rows.any (fun r => List.lookup kDay r == some day) &&
  s.rows.any (fun r => List.lookup kClinic r == some clinic)

/-- SOURCE get_sheet_for_clinic: first document in natural order whose rows
contain an element matching day and clinic. -/
def get_sheet_for_clinic (day clinic : Str) (db : Db) : Option Sheet :=
  db.find? (elemMatchB day clinic)

/-- Mongo replace_one(filter, doc, upsert=True): replace the first matching
document in place, else append the new document. -/
def replaceOne (p : Sheet → Bool) (doc : Sheet) : Db → Db
  | [] => [doc]
  | s :: t => if p s then doc :: t else s :: replaceOne p doc t

/-- Python re.sub(r"\s+", "", s). -/
def removeWs (s : Str) : Str := s.filter (fun c => !(isSpaceCh c))

/-- SOURCE app.py line 193. -/
def knownFields : List Str := [kRowId, kName, kAge, kMemberName, kComments, kFee]

/-- SOURCE app.py line 43 default. -/
def SESSION_NAME : Str := "Fall 2025".data

/-- SOURCE app.py lines 196-205: group the expanded rows by (Day, Clinic) in
first-appearance order (defaultdict + insertion-ordered dict), skipping rows
whose Day or Clinic is falsy. -/
def insertGrouped (k : Str × Str) (r : Row) :
    List ((Str × Str) × List Row) → List ((Str × Str) × List Row)
  | [] => [(k, [r])]
  | (q, rs) :: t => if q = k then (q, rs ++ [r]) :: t else (q, rs) :: insertGrouped k r t

def groupRows (l : List Row) : List ((Str × Str) × List Row) :=
  l.foldl
    (fun gs r =>
      if (getS kDay r).isEmpty || (getS kClinic r).isEmpty then gs
      else insertGrouped (getS kDay r, getS kClinic r) r gs)
    []

/-- SOURCE app.py line 212 filename pattern day_Clinic_datetag.csv. -/
def importFilename (day clinic date_tag : Str) : Str :=
  day ++ ('_' :: removeWs clinic) ++ ('_' :: date_tag) ++ ".csv".data

/-- SOURCE app.py lines 214-220: session := nonempty form value, else the
session of the first dot-filter-matching document if nonempty, else the
default. -/
def sessionFor (formSession day clinic : Str) (db : Db) : Str :=
  if formSession.isEmpty then
    match db.find? (filterMatchB day clinic) with
    | some s => if s.session.isEmpty then SESSION_NAME else s.session
    | none => SESSION_NAME
  else formSession

/-- The document upserted for one (day, clinic) group (app.py lines 222-228). -/
def importDoc (day clinic : Str) (grs : List Row) (dyn : List Str)
    (formSession date_tag : Str) (now : Nat) (db : Db) : Sheet :=
  ⟨importFilename day clinic date_tag, grs, dyn,
   sessionFor formSession day clinic db, now⟩

/-- SOURCE app.py lines 208-236: for each (day, clinic) group, replace the
first document matching the dotted filter with the new document (upsert). -/
def importGroups (gs : List ((Str × Str) × List Row)) (dyn : List Str)
    (formSession date_tag : Str) (now : Nat) (db : Db) : Db :=
  gs.foldl
    (fun db kg =>
      replaceOne (filterMatchB kg.1.1 kg.1.2)
        (importDoc kg.1.1 kg.1.2 kg.2 dyn formSession date_tag now db) db)
    db

/-- SOURCE app.py index POST lines 185-236: build the attendance table, derive
dynamic columns as all columns outside the six known fields, group rows by
(Day, Clinic) and upsert one document per group.  Day values are modelled as
the strings of the expanded table; this is exact whenever every Day is one of
the five recognized days (otherwise pandas would replace it by NaN before
to_dict). -/
def index_import (g : Nat → Str) (df : Table) (formSession date_tag : Str)
    (now : Nat) (db : Db) : Db :=
  importGroups (groupRows (build_attendance g df).rows)
    ((build_attendance g df).cols.filter (fun c => !(knownFields.contains c)))
    formSession date_tag now db

/-! ## Claim C9: dynamic columns of imported sheets -/

theorem mem_rowsExpand_shape {clinic col : Str} {rows : List Row} {x : Row}
    (hx : x ∈ rowsExpand clinic col rows) :
    ∃ dse row, x = attRowCore clinic dse row := by
  induction rows with
  | nil => simp [rowsExpand] at hx
  | cons r t ih =>
    rcases List.mem_append.mp hx with h | h
    · rcases List.mem_map.mp h with ⟨dse, _, rfl⟩
      exact ⟨dse, r, rfl⟩
    · exact ih h

theorem mem_expandSpec_shape {df : Table} {x : Row} (hx : x ∈ expandSpec df) :
    ∃ cc ∈ CLINIC_COLUMNS, ∃ dse row, x = attRowCore cc.1 dse row := by
  unfold expandSpec at hx
  generalize CLINIC_COLUMNS = ccs at hx ⊢
  induction ccs with
  | nil => simp at hx
  | cons cc t ih =>
    rcases List.mem_append.mp hx with h | h
    · by_cases hc : cc.2 ∈ df.cols
      · rw [if_pos hc] at h
        rcases mem_rowsExpand_shape h with ⟨dse, row, rfl⟩
        exact ⟨cc, List.mem_cons_self cc t, dse, row, rfl⟩
      · rw [if_neg hc] at h
        simp at h
    · rcases ih h with ⟨cc2, hcc2, rest⟩
      exact ⟨cc2, List.mem_cons_of_mem _ hcc2, rest⟩

theorem mem_withIdsFrom {g : Nat → Str} {k : Nat} {l : List Row} {r : Row}
    (h : r ∈ withIdsFrom g k l) : ∃ e ∈ l, ∃ j, r = e ++ [(kRowId, g j)] := by
  induction l generalizing k with
  | nil => simp [withIdsFrom] at h
  | cons e t ih =>
    rcases List.mem_cons.mp h with h2 | h2
    · exact ⟨e, List.mem_cons_self e t, k, h2⟩
    · rcases ih h2 with ⟨e2, he2, j, hj⟩
      exact ⟨e2, List.mem_cons_of_mem _ he2, j, hj⟩

theorem keys_buildRecords {g : Nat → Str} {df : Table} {r : Row}
    (h : r ∈ buildRecords g df) : r.map Prod.fst = fixedCols := by
  rw [buildRecords_eq_expandSpec] at h
  rcases mem_withIdsFrom h with ⟨e, he, j, rfl⟩
  rcases mem_expandSpec_shape he with ⟨cc, _, dse, row, rfl⟩
  rfl

theorem columnsOf_const {l : List Row} (hne : l ≠ [])
    (hk : ∀ r ∈ l, r.map Prod.fst = fixedCols) : columnsOf l = fixedCols := by
  have aux : ∀ t : List Row, (∀ r ∈ t, r.map Prod.fst = fixedCols) →
      t.foldl
        (fun acc r =>
          (r.map Prod.fst).foldl (fun acc k => if k ∈ acc then acc else acc ++ [k]) acc)
        fixedCols = fixedCols := by
    intro t ht
    induction t with
    | nil => rfl
    | cons r t2 ih =>
      simp only [List.foldl_cons]
      rw [ht r (List.mem_cons_self r t2)]
      rw [(by decide :
        fixedCols.foldl (fun acc k => if k ∈ acc then acc else acc ++ [k]) fixedCols =
          fixedCols)]
      exact ih (fun q hq => ht q (List.mem_cons_of_mem _ hq))
  cases l with
  | nil => exact absurd rfl hne
  | cons r t =>
    unfold columnsOf
    simp only [List.foldl_cons]
    rw [hk r (List.mem_cons_self r t)]
    rw [(by decide :
      fixedCols.foldl (fun acc k => if k ∈ acc then acc else acc ++ [k]) [] = fixedCols)]
    exact aux t (fun q hq => hk q (List.mem_cons_of_mem _ hq))

theorem dynCols_build (g : Nat → Str) (df : Table) :
    (build_attendance g df).cols.filter (fun c => !(knownFields.contains c)) =
      [kDay, kClinic, kTime, kEmail, kPhone] := by
  unfold build_attendance
  by_cases h : (buildRecords g df).isEmpty = true
  · simp only [h, if_true]
    decide
  · have h2 : (buildRecords g df).isEmpty = false := by simp_all
    simp only [h2, Bool.false_eq_true, if_false]
    have hne : buildRecords g df ≠ [] := by
      intro he; rw [he] at h2; simp at h2
    rw [columnsOf_const hne (fun r hr => keys_buildRecords hr)]
    decide

theorem mem_replaceOne {p : Sheet → Bool} {doc : Sheet} {db : Db} {s : Sheet}
    (h : s ∈ replaceOne p doc db) : s ∈ db ∨ s = doc := by
  induction db with
  | nil => simp [replaceOne] at h; exact Or.inr h
  | cons hd t ih =>
    unfold replaceOne at h
    by_cases hp : p hd = true
    · rw [if_pos hp] at h
      rcases List.mem_cons.mp h with h2 | h2
      · exact Or.inr h2
      · exact Or.inl (List.mem_cons_of_mem _ h2)
    · rw [if_neg hp] at h
      rcases List.mem_cons.mp h with h2 | h2
      · exact Or.inl (h2 ▸ List.mem_cons_self hd t)
      · rcases ih h2 with h3 | h3
        · exact Or.inl (List.mem_cons_of_mem _ h3)
        · exact Or.inr h3

theorem mem_importGroups {gs : List ((Str × Str) × List Row)} {dyn : List Str}
    {fs dt : Str} {now : Nat} {db : Db} {s : Sheet}
    (h : s ∈ importGroups gs dyn fs dt now db) : s ∈ db ∨ s.dynamic_columns = dyn := by
  induction gs generalizing db with
  | nil => exact Or.inl h
  | cons kg t ih =>
    unfold importGroups at h ih
    simp only [List.foldl_cons] at h
    rcases ih h with h2 | h2
    · rcases mem_replaceOne h2 with h3 | h3
      · exact Or.inl h3
      · exact Or.inr (by rw [h3]; rfl)
    · exact Or.inr h2

/-- C9: after every import, the dynamic_columns recorded on each upserted
sheet are exactly the expanded table's columns minus the six known fields
row_id, Name, Age, MemberName, Comments, Fee, which always comes out as the
five core fields Day, Clinic, Time, Email, Phone, so those core fields are
registered as dynamic (ad-hoc) columns of every imported group. -/
theorem c9_dynamic_columns :
    (∀ (g : Nat → Str) (df : Table),
      (build_attendance g df).cols.filter (fun c => !(knownFields.contains c)) =
        [kDay, kClinic, kTime, kEmail, kPhone]) ∧
    (∀ (g : Nat → Str) (df : Table) (fs dt : Str) (now : Nat) (db : Db) (s : Sheet),
      s ∈ index_import g df fs dt now db →
      s ∈ db ∨ s.dynamic_columns = [kDay, kClinic, kTime, kEmail, kPhone]) := by
  refine ⟨dynCols_build, ?_⟩
  intro g df fs dt now db s hs
  unfold index_import at hs
  rcases mem_importGroups hs with h | h
  · exact Or.inl h
  · exact Or.inr (by rw [h, dynCols_build])

/-- A pre-existing sheet used in the C9 witness. -/
def c9sheet : Sheet := ⟨"x.csv".data, [], [], SESSION_NAME, 0⟩

/-- C9 witness: importing the empty table over a one-sheet store leaves that
sheet, and the theorem applied to it discharges its membership hypothesis. -/
theorem c9_witness :
    c9sheet ∈ [c9sheet] ∨
      c9sheet.dynamic_columns = [kDay, kClinic, kTime, kEmail, kPhone] :=
  c9_dynamic_columns.2 c5g ⟨[], []⟩ [] "20250910".data 7 [c9sheet] c9sheet (by decide)

/-! ## Claim C4: grouping invariants -/

/-- Every row of the list carries exactly this (Day, Clinic) key. -/
def UniformRows (day clinic : Str) (rows : List Row) : Prop :=
  ∀ r ∈ rows, List.lookup kDay r = some day ∧ List.lookup kClinic r = some clinic

/-- Well-formedness of a grouped row list: pairwise distinct keys, nonempty
groups with truthy keys, and uniform rows. -/
def GroupsOK (gs : List ((Str × Str) × List Row)) : Prop :=
  List.Pairwise (fun a b => a.1 ≠ b.1) gs ∧
  ∀ kg ∈ gs, kg.2 ≠ [] ∧ kg.1.1 ≠ [] ∧ kg.1.2 ≠ [] ∧ UniformRows kg.1.1 kg.1.2 kg.2

theorem mem_insertGrouped {kg : (Str × Str) × List Row} {k : Str × Str} {r : Row}
    {gs : List ((Str × Str) × List Row)} (h : kg ∈ insertGrouped k r gs) :
    kg ∈ gs ∨ (∃ rs, (k, rs) ∈ gs ∧ kg = (k, rs ++ [r])) ∨ kg = (k, [r]) := by
  induction gs with
  | nil =>
    simp only [insertGrouped] at h
    rcases List.mem_cons.mp h with h2 | h2
    · exact Or.inr (Or.inr h2)
    · simp at h2
  | cons qrs t ih =>
    rcases qrs with ⟨q, rs⟩
    simp only [insertGrouped] at h
    by_cases hq : q = k
    · rw [if_pos hq] at h
      rcases List.mem_cons.mp h with h2 | h2
      · subst hq
        exact Or.inr (Or.inl ⟨rs, List.mem_cons_self _ _, h2⟩)
      · exact Or.inl (List.mem_cons_of_mem _ h2)
    · rw [if_neg hq] at h
      rcases List.mem_cons.mp h with h2 | h2
      · exact Or.inl (h2 ▸ List.mem_cons_self _ _)
      · rcases ih h2 with h3 | ⟨rs2, hm, he⟩ | h3
        · exact Or.inl (List.mem_cons_of_mem _ h3)
        · exact Or.inr (Or.inl ⟨rs2, List.mem_cons_of_mem _ hm, he⟩)
        · exact Or.inr (Or.inr h3)

theorem key_mem_insertGrouped {kg : (Str × Str) × List Row} {k : Str × Str} {r : Row}
    {gs : List ((Str × Str) × List Row)} (h : kg ∈ insertGrouped k r gs) :
    kg.1 = k ∨ kg.1 ∈ gs.map Prod.fst := by
  rcases mem_insertGrouped h with h2 | ⟨rs, hm, he⟩ | h2
  · exact Or.inr (List.mem_map.mpr ⟨kg, h2, rfl⟩)
  · exact Or.inl (by rw [he])
  · exact Or.inl (by rw [h2])

theorem pairwise_insertGrouped {k : Str × Str} {r : Row}
    {gs : List ((Str × Str) × List Row)}
    (h : List.Pairwise (fun a b => a.1 ≠ b.1) gs) :
    List.Pairwise (fun a b => a.1 ≠ b.1) (insertGrouped k r gs) := by
  induction gs with
  | nil => simp [insertGrouped]
  | cons qrs t ih =>
    rcases qrs with ⟨q, rs⟩
    rcases List.pairwise_cons.mp h with ⟨hq, ht⟩
    simp only [insertGrouped]
    by_cases heq : q = k
    · rw [if_pos heq]
      exact List.pairwise_cons.mpr ⟨hq, ht⟩
    · rw [if_neg heq]
      refine List.pairwise_cons.mpr ⟨?_, ih ht⟩
      intro b hb
      rcases key_mem_insertGrouped hb with h2 | h2
      · rw [h2]; exact heq
      · rcases List.mem_map.mp h2 with ⟨c, hc, he⟩
        exact he ▸ hq c hc

theorem insertGrouped_ok {k : Str × Str} {r : Row}
    {gs : List ((Str × Str) × List Row)} (h : GroupsOK gs)
    (h1 : k.1 ≠ []) (h2 : k.2 ≠ [])
    (hr1 : List.lookup kDay r = some k.1) (hr2 : List.lookup kClinic r = some k.2) :
    GroupsOK (insertGrouped k r gs) := by
  refine ⟨pairwise_insertGrouped h.1, ?_⟩
  intro kg hkg
  rcases mem_insertGrouped hkg with h3 | ⟨rs, hm, he⟩ | h3
  · exact h.2 kg h3
  · rcases h.2 (k, rs) hm with ⟨_, _, _, hu⟩
    subst he
    refine ⟨by simp, h1, h2, ?_⟩
    intro q hq
    rcases List.mem_append.mp hq with hq2 | hq2
    · exact hu q hq2
    · rcases List.mem_singleton.mp hq2 with rfl
      exact ⟨hr1, hr2⟩
  · subst h3
    refine ⟨by simp, h1, h2, ?_⟩
    intro q hq
    rcases List.mem_singleton.mp hq with rfl
    exact ⟨hr1, hr2⟩

theorem lookup_of_getS_ne {k : Str} {r : Row} {v : Str}
    (hv : getS k r = v) (hne : v ≠ []) : List.lookup k r = some v := by
  unfold getS at hv
  cases h : List.lookup k r with
  | none => rw [h] at hv; exact absurd hv.symm (by simpa using hne)
  | some w => rw [h] at hv; simp at hv; rw [hv]

theorem groupRows_ok (l : List Row) : GroupsOK (groupRows l) := by
  have aux : ∀ (t : List Row) (gs : List ((Str × Str) × List Row)), GroupsOK gs →
      GroupsOK (t.foldl
        (fun gs r =>
          if (getS kDay r).isEmpty || (getS kClinic r).isEmpty then gs
          else insertGrouped (getS kDay r, getS kClinic r) r gs)
        gs) := by
    intro t
    induction t with
    | nil => intro gs h; exact h
    | cons r t2 ih =>
      intro gs h
      simp only [List.foldl_cons]
      by_cases hc : ((getS kDay r).isEmpty || (getS kClinic r).isEmpty) = true
      · rw [if_pos hc]; exact ih gs h
      · rw [if_neg hc]
        rw [Bool.or_eq_true] at hc
        push_neg at hc
        have hd : getS kDay r ≠ [] := by
          intro he
          exact hc.1 (by rw [he]; rfl)
        have hcl : getS kClinic r ≠ [] := by
          intro he
          exact hc.2 (by rw [he]; rfl)
        exact ih _ (insertGrouped_ok h hd hcl
          (lookup_of_getS_ne rfl hd) (lookup_of_getS_ne rfl hcl))
  exact aux l [] ⟨List.Pairwise.nil, by simp⟩

/-! ## Claim C4: matching and upsert lemmas -/

theorem filterMatch_of_elemMatch {day clinic : Str} {s : Sheet}
    (h : elemMatchB day clinic s = true) : filterMatchB day clinic s = true := by
  unfold elemMatchB at h
  unfold filterMatchB
  rw [List.any_eq_true] at h
  rcases h with ⟨r, hr, hb⟩
  rw [Bool.and_eq_true] at hb
  rw [Bool.and_eq_true]
  refine ⟨List.any_eq_true.mpr ⟨r, hr, hb.1⟩, List.any_eq_true.mpr ⟨r, hr, hb.2⟩⟩

theorem any_lookup_uniform {rows : List Row} {k d v : Str}
    (hu : ∀ r ∈ rows, List.lookup k r = some d) (hne : rows ≠ []) :
    (rows.any (fun r => List.lookup k r == some v)) = true ↔ v = d := by
  rw [List.any_eq_true]
  constructor
  · rintro ⟨r, hr, hb⟩
    have hv := eq_of_beq hb
    rw [hu r hr] at hv
    exact (Option.some.inj hv).symm
  · rintro rfl
    cases rows with
    | nil => exact absurd rfl hne
    | cons r t =>
      refine ⟨r, List.mem_cons_self r t, ?_⟩
      rw [hu r (List.mem_cons_self r t)]
      exact beq_self_eq_true _

theorem uniform_filterMatch_iff {day clinic d c : Str} {s : Sheet}
    (hu : UniformRows d c s.rows) (hne : s.rows ≠ []) :
    filterMatchB day clinic s = true ↔ day = d ∧ clinic = c := by
  unfold filterMatchB
  rw [Bool.and_eq_true, any_lookup_uniform (fun r hr => (hu r hr).1) hne,
      any_lookup_uniform (fun r hr => (hu r hr).2) hne]

theorem uniform_elemMatch_iff {day clinic d c : Str} {s : Sheet}
    (hu : UniformRows d c s.rows) (hne : s.rows ≠ []) :
    elemMatchB day clinic s = true ↔ day = d ∧ clinic = c := by
  unfold elemMatchB
  rw [List.any_eq_true]
  constructor
  · rintro ⟨r, hr, hb⟩
    rw [Bool.and_eq_true] at hb
    have h1 := eq_of_beq hb.1
    have h2 := eq_of_beq hb.2
    rw [(hu r hr).1] at h1
    rw [(hu r hr).2] at h2
    exact ⟨(Option.some.inj h1).symm, (Option.some.inj h2).symm⟩
  · rintro ⟨rfl, rfl⟩
    cases he : s.rows with
    | nil => exact absurd he hne
    | cons r t =>
      refine ⟨r, he ▸ List.mem_cons_self r t, ?_⟩
      rw [Bool.and_eq_true]
      have := hu r (he ▸ List.mem_cons_self r t)
      rw [this.1, this.2]
      exact ⟨beq_self_eq_true _, beq_self_eq_true _⟩

theorem replaceOne_no_match {p : Sheet → Bool} {doc : Sheet} {db : Db}
    (h : ∀ s ∈ db, p s = false) : replaceOne p doc db = db ++ [doc] := by
  induction db with
  | nil => rfl
  | cons s t ih =>
    unfold replaceOne
    rw [if_neg (by rw [h s (List.mem_cons_self s t)]; simp)]
    rw [ih (fun q hq => h q (List.mem_cons_of_mem _ hq))]
    rfl

theorem replaceOne_aligned {p : Sheet → Bool} {doc s0 : Sheet} {A B : Db}
    (hA : ∀ s ∈ A, p s = false) (h0 : p s0 = true) :
    replaceOne p doc (A ++ s0 :: B) = A ++ doc :: B := by
  induction A with
  | nil => simp [replaceOne, h0]
  | cons s t ih =>
    simp only [List.cons_append, replaceOne]
    rw [if_neg (by rw [hA s (List.mem_cons_self s t)]; simp)]
    rw [List.append_eq, ih (fun q hq => hA q (List.mem_cons_of_mem _ hq))]

theorem find?_false_none {p : Sheet → Bool} {l : Db} (h : ∀ s ∈ l, p s = false) :
    List.find? p l = none := by
  induction l with
  | nil => rfl
  | cons s t ih =>
    rw [List.find?_cons_of_neg _ (by rw [h s (List.mem_cons_self s t)]; simp)]
    exact ih (fun q hq => h q (List.mem_cons_of_mem _ hq))

theorem find?_append_skip {p : Sheet → Bool} {l1 l2 : Db}
    (h : ∀ s ∈ l1, p s = false) : List.find? p (l1 ++ l2) = List.find? p l2 := by
  induction l1 with
  | nil => rfl
  | cons s t ih =>
    rw [List.cons_append,
        List.find?_cons_of_neg _ (by rw [h s (List.mem_cons_self s t)]; simp)]
    exact ih (fun q hq => h q (List.mem_cons_of_mem _ hq))

/-- The session value stored by a fresh import: the nonempty form value, or
the default. -/
def sessVal (fs : Str) : Str := if fs.isEmpty then SESSION_NAME else fs

/-- The documents a (re-)import writes, one per group in group order. -/
def docsOf (gs : List ((Str × Str) × List Row)) (dyn : List Str) (fs dt : Str)
    (now : Nat) : Db :=
  gs.map (fun kg => ⟨importFilename kg.1.1 kg.1.2 dt, kg.2, dyn, sessVal fs, now⟩)

theorem sessionFor_no_match {fs day clinic : Str} {db : Db}
    (h : ∀ s ∈ db, filterMatchB day clinic s = false) :
    sessionFor fs day clinic db = sessVal fs := by
  unfold sessionFor sessVal
  rw [find?_false_none h]

theorem sessionFor_found {fs day clinic : Str} {A B : Db} {d : Sheet}
    (hA : ∀ s ∈ A, filterMatchB day clinic s = false)
    (hd : filterMatchB day clinic d = true) (hsess : d.session = sessVal fs) :
    sessionFor fs day clinic (A ++ d :: B) = sessVal fs := by
  unfold sessionFor
  rw [find?_append_skip hA, List.find?_cons_of_pos _ hd]
  by_cases h : fs.isEmpty = true
  · rw [if_pos h]
    show (if d.session.isEmpty = true then SESSION_NAME else d.session) = sessVal fs
    have h2 : sessVal fs = SESSION_NAME := by unfold sessVal; rw [if_pos h]
    rw [hsess, h2, if_neg (by decide)]
  · rw [if_neg h]
    unfold sessVal
    rw [if_neg h]

/-! ## Claim C4: the import fold appends on a fresh store and replaces
in place on re-import -/

theorem importGroups_fresh {gs : List ((Str × Str) × List Row)} {dyn : List Str}
    {fs dt : Str} {now : Nat} {db : Db}
    (hok : GroupsOK gs)
    (hdb : ∀ kg ∈ gs, ∀ s ∈ db, filterMatchB kg.1.1 kg.1.2 s = false) :
    importGroups gs dyn fs dt now db = db ++ docsOf gs dyn fs dt now := by
  induction gs generalizing db with
  | nil => simp [importGroups, docsOf]
  | cons kg t ih =>
    rcases hok with ⟨hpw, hprops⟩
    rcases List.pairwise_cons.mp hpw with ⟨hkey, hpwt⟩
    rcases hprops kg (List.mem_cons_self kg t) with ⟨hne, hk1, hk2, hu⟩
    have hno : ∀ s ∈ db, filterMatchB kg.1.1 kg.1.2 s = false :=
      hdb kg (List.mem_cons_self kg t)
    have hdoc : importDoc kg.1.1 kg.1.2 kg.2 dyn fs dt now db =
        ⟨importFilename kg.1.1 kg.1.2 dt, kg.2, dyn, sessVal fs, now⟩ := by
      unfold importDoc
      rw [sessionFor_no_match hno]
    have step : importGroups (kg :: t) dyn fs dt now db =
        importGroups t dyn fs dt now
          (db ++ [⟨importFilename kg.1.1 kg.1.2 dt, kg.2, dyn, sessVal fs, now⟩]) := by
      unfold importGroups
      simp only [List.foldl_cons]
      rw [replaceOne_no_match hno, hdoc]
    rw [step]
    have hokt : GroupsOK t := ⟨hpwt, fun kg2 h => hprops kg2 (List.mem_cons_of_mem _ h)⟩
    have hdb2 : ∀ kg2 ∈ t, ∀ s ∈
        db ++ [(⟨importFilename kg.1.1 kg.1.2 dt, kg.2, dyn, sessVal fs, now⟩ : Sheet)],
        filterMatchB kg2.1.1 kg2.1.2 s = false := by
      intro kg2 hkg2 s hs
      rcases List.mem_append.mp hs with h2 | h2
      · exact hdb kg2 (List.mem_cons_of_mem _ hkg2) s h2
      · rcases List.mem_singleton.mp h2 with rfl
        cases hm : filterMatchB kg2.1.1 kg2.1.2
          ⟨importFilename kg.1.1 kg.1.2 dt, kg.2, dyn, sessVal fs, now⟩ with
        | false => rfl
        | true =>
          rcases (uniform_filterMatch_iff hu hne).mp hm with ⟨e1, e2⟩
          exact absurd (Prod.ext e1 e2).symm (hkey kg2 hkg2)
    rw [ih hokt hdb2]
    simp [docsOf]

theorem importGroups_aligned {gs : List ((Str × Str) × List Row)} {dyn : List Str}
    {fs dt : Str} {now : Nat} {B : Db} {A : Db}
    (hok : GroupsOK gs)
    (hA : ∀ kg ∈ gs, ∀ s ∈ A, filterMatchB kg.1.1 kg.1.2 s = false)
    (hB : List.Forall₂ (fun kg (d : Sheet) =>
        d.rows ≠ [] ∧ d.session = sessVal fs ∧ UniformRows kg.1.1 kg.1.2 d.rows) gs B) :
    importGroups gs dyn fs dt now (A ++ B) = A ++ docsOf gs dyn fs dt now := by
  revert hok hA
  induction hB generalizing A with
  | nil =>
    intro hok hA
    simp [importGroups, docsOf]
  | @cons kg d t B2 hrel htl ih =>
    intro hok hA
    rcases hok with ⟨hpw, hprops⟩
    rcases List.pairwise_cons.mp hpw with ⟨hkey, hpwt⟩
    rcases hprops kg (List.mem_cons_self kg t) with ⟨hne, hk1, hk2, hu⟩
    rcases hrel with ⟨hdne, hdsess, hdu⟩
    have hAkg : ∀ s ∈ A, filterMatchB kg.1.1 kg.1.2 s = false :=
      hA kg (List.mem_cons_self kg t)
    have hdm : filterMatchB kg.1.1 kg.1.2 d = true :=
      (uniform_filterMatch_iff hdu hdne).mpr ⟨rfl, rfl⟩
    have hdoc : importDoc kg.1.1 kg.1.2 kg.2 dyn fs dt now (A ++ d :: B2) =
        ⟨importFilename kg.1.1 kg.1.2 dt, kg.2, dyn, sessVal fs, now⟩ := by
      unfold importDoc
      rw [sessionFor_found hAkg hdm hdsess]
    have step : importGroups (kg :: t) dyn fs dt now (A ++ d :: B2) =
        importGroups t dyn fs dt now
          ((A ++ [⟨importFilename kg.1.1 kg.1.2 dt, kg.2, dyn, sessVal fs, now⟩]) ++ B2) := by
      unfold importGroups
      simp only [List.foldl_cons]
      rw [hdoc, replaceOne_aligned hAkg hdm]
      simp
    rw [step]
    have hokt : GroupsOK t := ⟨hpwt, fun kg2 h => hprops kg2 (List.mem_cons_of_mem _ h)⟩
    have hA2 : ∀ kg2 ∈ t, ∀ s ∈
        A ++ [(⟨importFilename kg.1.1 kg.1.2 dt, kg.2, dyn, sessVal fs, now⟩ : Sheet)],
        filterMatchB kg2.1.1 kg2.1.2 s = false := by
      intro kg2 hkg2 s hs
      rcases List.mem_append.mp hs with h2 | h2
      · exact hA kg2 (List.mem_cons_of_mem _ hkg2) s h2
      · rcases List.mem_singleton.mp h2 with rfl
        cases hm : filterMatchB kg2.1.1 kg2.1.2
          ⟨importFilename kg.1.1 kg.1.2 dt, kg.2, dyn, sessVal fs, now⟩ with
        | false => rfl
        | true =>
          rcases (uniform_filterMatch_iff hu hne).mp hm with ⟨e1, e2⟩
          exact absurd (Prod.ext e1 e2).symm (hkey kg2 hkg2)
    rw [ih hokt hA2]
    simp [docsOf]

/-! ## Claim C4: locating the imported document -/

theorem filter_false_nil {p : Sheet → Bool} {l : Db} (h : ∀ s ∈ l, p s = false) :
    l.filter p = [] := by
  induction l with
  | nil => rfl
  | cons s t ih =>
    rw [List.filter_cons_of_neg (by rw [h s (List.mem_cons_self s t)]; simp)]
    exact ih (fun q hq => h q (List.mem_cons_of_mem _ hq))

theorem docsOf_filter_eq {gs : List ((Str × Str) × List Row)} {dyn : List Str}
    {fs dt : Str} {now : Nat} {kg : (Str × Str) × List Row}
    (hok : GroupsOK gs) (hkg : kg ∈ gs) :
    (docsOf gs dyn fs dt now).filter (elemMatchB kg.1.1 kg.1.2) =
      [⟨importFilename kg.1.1 kg.1.2 dt, kg.2, dyn, sessVal fs, now⟩] := by
  induction gs with
  | nil => simp at hkg
  | cons kg2 t ih =>
    rcases hok with ⟨hpw, hprops⟩
    rcases List.pairwise_cons.mp hpw with ⟨hkey, hpwt⟩
    rcases hprops kg2 (List.mem_cons_self kg2 t) with ⟨hne2, _, _, hu2⟩
    simp only [docsOf, List.map_cons]
    by_cases heq : kg2.1 = kg.1
    · have hkk : kg = kg2 := by
        rcases List.mem_cons.mp hkg with h | h
        · exact h
        · exact absurd heq (hkey kg h)
      subst hkk
      rw [List.filter_cons_of_pos
        ((uniform_elemMatch_iff hu2 hne2).mpr ⟨rfl, rfl⟩)]
      have hrest : (docsOf t dyn fs dt now).filter (elemMatchB kg.1.1 kg.1.2) = [] := by
        refine filter_false_nil ?_
        intro s hs
        rcases List.mem_map.mp hs with ⟨kg3, hkg3, rfl⟩
        rcases hprops kg3 (List.mem_cons_of_mem _ hkg3) with ⟨hne3, _, _, hu3⟩
        cases hm : elemMatchB kg.1.1 kg.1.2
          ⟨importFilename kg3.1.1 kg3.1.2 dt, kg3.2, dyn, sessVal fs, now⟩ with
        | false => rfl
        | true =>
          rcases (uniform_elemMatch_iff hu3 hne3).mp hm with ⟨e1, e2⟩
          exact absurd (Prod.ext e1 e2) (hkey kg3 hkg3)
      simp only [docsOf] at hrest
      rw [hrest]
    · have hhead : elemMatchB kg.1.1 kg.1.2
          ⟨importFilename kg2.1.1 kg2.1.2 dt, kg2.2, dyn, sessVal fs, now⟩ = false := by
        cases hm : elemMatchB kg.1.1 kg.1.2
          ⟨importFilename kg2.1.1 kg2.1.2 dt, kg2.2, dyn, sessVal fs, now⟩ with
        | false => rfl
        | true =>
          rcases (uniform_elemMatch_iff hu2 hne2).mp hm with ⟨e1, e2⟩
          exact absurd (Prod.ext e1 e2).symm heq
      rw [List.filter_cons_of_neg (by rw [hhead]; simp)]
      have hmem : kg ∈ t := by
        rcases List.mem_cons.mp hkg with h | h
        · exact absurd (h ▸ rfl) heq
        · exact h
      have := ih ⟨hpwt, fun kg3 h => hprops kg3 (List.mem_cons_of_mem _ h)⟩ hmem
      simpa [docsOf] using this

theorem find?_of_filter_singleton {p : Sheet → Bool} {l : Db} {d : Sheet}
    (h : l.filter p = [d]) : List.find? p l = some d := by
  induction l with
  | nil => simp at h
  | cons s t ih =>
    by_cases hp : p s = true
    · rw [List.filter_cons_of_pos hp] at h
      have h2 : s = d := by
        have := List.cons.inj h
        exact this.1
      rw [List.find?_cons_of_pos _ hp, h2]
    · have hp2 : ¬ p s = true := hp
      rw [List.filter_cons_of_neg hp2] at h
      rw [List.find?_cons_of_neg _ hp2]
      exact ih h

/-! ## Claim C4: the two expansions of the same table have equal group
keys and group sizes (only the generated row ids differ) -/

/-- Two records equal on the four key fields used by sorting and grouping. -/
def RelRow (a b : Row) : Prop :=
  List.lookup kDay a = List.lookup kDay b ∧
  List.lookup kClinic a = List.lookup kClinic b ∧
  List.lookup kTime a = List.lookup kTime b ∧
  List.lookup kName a = List.lookup kName b

theorem lookup_append_single_ne {k k2 : Str} {e : Row} {v : Str}
    (h : (k == k2) = false) :
    List.lookup k (e ++ [(k2, v)]) = List.lookup k e := by
  rw [lookup_append]
  cases he : List.lookup k e with
  | some w => rfl
  | none => simp [List.lookup, h]

theorem relRow_withIds {g1 g2 : Nat → Str} {l : List Row} :
    ∀ k1 k2, List.Forall₂ RelRow (withIdsFrom g1 k1 l) (withIdsFrom g2 k2 l) := by
  induction l with
  | nil => intro k1 k2; exact List.Forall₂.nil
  | cons e t ih =>
    intro k1 k2
    refine List.Forall₂.cons ⟨?_, ?_, ?_, ?_⟩ (ih _ _) <;>
      rw [lookup_append_single_ne (by decide), lookup_append_single_ne (by decide)]

theorem relRow_buildRecords (g1 g2 : Nat → Str) (df : Table) :
    List.Forall₂ RelRow (buildRecords g1 df) (buildRecords g2 df) := by
  rw [buildRecords_eq_expandSpec, buildRecords_eq_expandSpec]
  exact relRow_withIds 0 0

theorem relRow_sortKey {a b : Row} (h : RelRow a b) : sortKeyL a = sortKeyL b := by
  rcases h with ⟨h1, h2, h3, h4⟩
  unfold sortKeyL getS
  rw [h1, h2, h3, h4]

theorem relRow_getS_day {a b : Row} (h : RelRow a b) : getS kDay a = getS kDay b := by
  unfold getS; rw [h.1]

theorem relRow_getS_clinic {a b : Row} (h : RelRow a b) :
    getS kClinic a = getS kClinic b := by
  unfold getS; rw [h.2.1]

theorem orderedInsert_congr {a b : Row} {l l2 : List Row} (hab : RelRow a b)
    (h : List.Forall₂ RelRow l l2) :
    List.Forall₂ RelRow (List.orderedInsert rowle a l)
      (List.orderedInsert rowle b l2) := by
  induction h with
  | nil => exact List.Forall₂.cons hab List.Forall₂.nil
  | @cons x y t t2 hxy htl ih =>
    simp only [List.orderedInsert]
    by_cases hle : rowle a x
    · rw [if_pos hle, if_pos (show rowle b y by
        unfold rowle at hle ⊢
        rw [← relRow_sortKey hab, ← relRow_sortKey hxy]
        exact hle)]
      exact List.Forall₂.cons hab (List.Forall₂.cons hxy htl)
    · rw [if_neg hle, if_neg (show ¬ rowle b y by
        unfold rowle at hle ⊢
        rw [← relRow_sortKey hab, ← relRow_sortKey hxy]
        exact hle)]
      exact List.Forall₂.cons hxy ih

theorem sortRecords_congr {l l2 : List Row} (h : List.Forall₂ RelRow l l2) :
    List.Forall₂ RelRow (sortRecords l) (sortRecords l2) := by
  induction h with
  | nil => exact List.Forall₂.nil
  | cons hxy htl ih =>
    simp only [sortRecords, List.insertionSort]
    exact orderedInsert_congr hxy ih

/-- Groups with equal keys and pointwise related rows. -/
def RelG (gs gs2 : List ((Str × Str) × List Row)) : Prop :=
  List.Forall₂ (fun kg kg2 => kg.1 = kg2.1 ∧ List.Forall₂ RelRow kg.2 kg2.2) gs gs2

theorem forall2_append_rel {R : Row → Row → Prop} {l1 l2 u1 u2 : List Row}
    (h : List.Forall₂ R l1 l2) (h2 : List.Forall₂ R u1 u2) :
    List.Forall₂ R (l1 ++ u1) (l2 ++ u2) := by
  induction h with
  | nil => exact h2
  | cons hx ht ih => exact List.Forall₂.cons hx ih

theorem insertGrouped_congr {k : Str × Str} {r r2 : Row}
    {gs gs2 : List ((Str × Str) × List Row)}
    (hr : RelRow r r2) (h : RelG gs gs2) :
    RelG (insertGrouped k r gs) (insertGrouped k r2 gs2) := by
  induction h with
  | nil =>
    exact List.Forall₂.cons ⟨rfl, List.Forall₂.cons hr List.Forall₂.nil⟩ List.Forall₂.nil
  | @cons kg kg2 t t2 hkg htl ih =>
    obtain ⟨q, rs⟩ := kg
    obtain ⟨q2, rs2⟩ := kg2
    obtain ⟨hq, hrs⟩ := hkg
    simp only at hq
    subst hq
    simp only [insertGrouped]
    by_cases he : q = k
    · rw [if_pos he, if_pos he]
      exact List.Forall₂.cons
        ⟨rfl, forall2_append_rel hrs (List.Forall₂.cons hr List.Forall₂.nil)⟩ htl
    · rw [if_neg he, if_neg he]
      exact List.Forall₂.cons ⟨rfl, hrs⟩ ih

theorem groupRows_congr {l l2 : List Row} (h : List.Forall₂ RelRow l l2) :
    RelG (groupRows l) (groupRows l2) := by
  have aux : ∀ {t t2 : List Row}, List.Forall₂ RelRow t t2 →
      ∀ {gs gs2 : List ((Str × Str) × List Row)}, RelG gs gs2 →
      RelG
        (t.foldl
          (fun gs r =>
            if (getS kDay r).isEmpty || (getS kClinic r).isEmpty then gs
            else insertGrouped (getS kDay r, getS kClinic r) r gs) gs)
        (t2.foldl
          (fun gs r =>
            if (getS kDay r).isEmpty || (getS kClinic r).isEmpty then gs
            else insertGrouped (getS kDay r, getS kClinic r) r gs) gs2) := by
    intro t t2 ht
    induction ht with
    | nil => intro gs gs2 h2; exact h2
    | @cons r r2 tt tt2 hr htl ih =>
      intro gs gs2 hg
      simp only [List.foldl_cons]
      have hd := relRow_getS_day hr
      have hc := relRow_getS_clinic hr
      by_cases hskip : ((getS kDay r).isEmpty || (getS kClinic r).isEmpty) = true
      · rw [if_pos hskip, if_pos (by rw [← hd, ← hc]; exact hskip)]
        exact ih hg
      · rw [if_neg hskip, if_neg (by rw [← hd, ← hc]; exact hskip)]
        have hkey : (getS kDay r2, getS kClinic r2) = (getS kDay r, getS kClinic r) := by
          rw [hd, hc]
        rw [hkey]
        exact ih (insertGrouped_congr hr hg)
  exact aux h List.Forall₂.nil

theorem build_rows (g : Nat → Str) (df : Table) :
    (build_attendance g df).rows = sortRecords (buildRecords g df) := by
  unfold build_attendance
  by_cases h : (buildRecords g df).isEmpty = true
  · simp only [h, if_true]
    rw [List.isEmpty_iff.mp h]
    rfl
  · have h2 : (buildRecords g df).isEmpty = false := by simp_all
    simp only [h2, Bool.false_eq_true, if_false]

theorem groups_forall2 (g1 g2 : Nat → Str) (df : Table) :
    List.Forall₂ (fun kg kg2 => kg.1 = kg2.1 ∧ kg.2.length = kg2.2.length)
      (groupRows (build_attendance g1 df).rows)
      (groupRows (build_attendance g2 df).rows) := by
  have h2 := sortRecords_congr (relRow_buildRecords g1 g2 df)
  rw [← build_rows, ← build_rows] at h2
  refine List.Forall₂.imp ?_ (groupRows_congr h2)
  intro kg kg2 hkg
  exact ⟨hkg.1, hkg.2.length_eq⟩


/-! ## Claim C4: main theorem -/

theorem forall2_mem_right {α β : Type} {R : α → β → Prop} {l1 : List α} {l2 : List β}
    (h : List.Forall₂ R l1 l2) {b : β} (hb : b ∈ l2) : ∃ a ∈ l1, R a b := by
  induction h with
  | nil => simp at hb
  | @cons x y t t2 hxy htl ih =>
    rcases List.mem_cons.mp hb with h2 | h2
    · exact ⟨x, List.mem_cons_self x t, h2 ▸ hxy⟩
    · rcases ih h2 with ⟨a, ha, har⟩
      exact ⟨a, List.mem_cons_of_mem _ ha, har⟩

theorem import_conclusions {gs : List ((Str × Str) × List Row)} {dyn : List Str}
    {fs dt : Str} {now : Nat} {dbIn A : Db}
    (hok : GroupsOK gs)
    (hA : ∀ kg ∈ gs, ∀ s ∈ A, filterMatchB kg.1.1 kg.1.2 s = false)
    (himp : importGroups gs dyn fs dt now dbIn = A ++ docsOf gs dyn fs dt now) :
    (∀ kg ∈ gs,
      ((importGroups gs dyn fs dt now dbIn).filter (elemMatchB kg.1.1 kg.1.2)).length
        = 1 ∧
      (get_sheet_for_clinic kg.1.1 kg.1.2 (importGroups gs dyn fs dt now dbIn)).map
        Sheet.rows = some kg.2) ∧
    (importGroups gs dyn fs dt now dbIn).length = A.length + gs.length := by
  constructor
  · intro kg hkg
    have hAelem : ∀ s ∈ A, elemMatchB kg.1.1 kg.1.2 s = false := by
      intro s hs
      cases hm : elemMatchB kg.1.1 kg.1.2 s with
      | false => rfl
      | true =>
        have := filterMatch_of_elemMatch hm
        rw [hA kg hkg s hs] at this
        simp at this
    constructor
    · rw [himp, List.filter_append, filter_false_nil hAelem, docsOf_filter_eq hok hkg]
      simp
    · unfold get_sheet_for_clinic
      rw [himp, find?_append_skip hAelem,
          find?_of_filter_singleton (docsOf_filter_eq hok hkg)]
      rfl
  · rw [himp]
    simp [docsOf]

theorem reimport_docs_rel {gs1 gs2 : List ((Str × Str) × List Row)} {dyn : List Str}
    {fs dt : Str} {now : Nat}
    (hF : List.Forall₂ (fun kg kg2 => kg.1 = kg2.1 ∧ kg.2.length = kg2.2.length)
      gs1 gs2)
    (hprops : ∀ kg ∈ gs1, kg.2 ≠ [] ∧ kg.1.1 ≠ [] ∧ kg.1.2 ≠ [] ∧
      UniformRows kg.1.1 kg.1.2 kg.2) :
    List.Forall₂ (fun kg2 (d : Sheet) =>
        d.rows ≠ [] ∧ d.session = sessVal fs ∧ UniformRows kg2.1.1 kg2.1.2 d.rows)
      gs2 (docsOf gs1 dyn fs dt now) := by
  revert hprops
  induction hF with
  | nil => intro _; exact List.Forall₂.nil
  | @cons kg kg2 t t2 hkg htl ih =>
    intro hprops
    rcases hprops kg (List.mem_cons_self kg t) with ⟨hne, _, _, hu⟩
    refine List.Forall₂.cons ⟨hne, rfl, ?_⟩
      (ih (fun q hq => hprops q (List.mem_cons_of_mem _ hq)))
    rw [← hkg.1]
    exact hu

/-- C4: under replace-policy A, re-importing the same table is idempotent.
With Day values recognized (so the string model is exact) and a store with no
document matching any imported (day, clinic) dotted filter, the first import
appends exactly one document per (day, clinic) group; afterwards exactly one
stored document elem-matches each imported key and its records are exactly
the newly imported ones.  A second import of the same table replaces each of
those documents in place: the document count is unchanged, each key again has
exactly one matching document holding exactly the re-imported records, and
the groups of the two imports have identical keys and record counts (only
generated row ids differ). -/
theorem c4_reimport_idempotent
    (g1 g2 : Nat → Str) (df : Table) (fs dt : Str) (n1 n2 : Nat) (db : Db)
    (_hdays : ∀ r ∈ (build_attendance g1 df).rows, getS kDay r ∈ DAY_ORDER)
    (hdb : ∀ kg ∈ groupRows (build_attendance g1 df).rows, ∀ s ∈ db,
      filterMatchB kg.1.1 kg.1.2 s = false) :
    (∀ kg ∈ groupRows (build_attendance g1 df).rows,
      ((index_import g1 df fs dt n1 db).filter (elemMatchB kg.1.1 kg.1.2)).length
        = 1 ∧
      (get_sheet_for_clinic kg.1.1 kg.1.2 (index_import g1 df fs dt n1 db)).map
        Sheet.rows = some kg.2) ∧
    (index_import g1 df fs dt n1 db).length =
      db.length + (groupRows (build_attendance g1 df).rows).length ∧
    (index_import g2 df fs dt n2 (index_import g1 df fs dt n1 db)).length =
      (index_import g1 df fs dt n1 db).length ∧
    (∀ kg ∈ groupRows (build_attendance g2 df).rows,
      ((index_import g2 df fs dt n2 (index_import g1 df fs dt n1 db)).filter
          (elemMatchB kg.1.1 kg.1.2)).length = 1 ∧
      (get_sheet_for_clinic kg.1.1 kg.1.2
          (index_import g2 df fs dt n2 (index_import g1 df fs dt n1 db))).map
        Sheet.rows = some kg.2) ∧
    List.Forall₂ (fun kg kg2 => kg.1 = kg2.1 ∧ kg.2.length = kg2.2.length)
      (groupRows (build_attendance g1 df).rows)
      (groupRows (build_attendance g2 df).rows) := by
  have hok1 := groupRows_ok (build_attendance g1 df).rows
  have hok2 := groupRows_ok (build_attendance g2 df).rows
  have hF := groups_forall2 g1 g2 df
  have himp1 : index_import g1 df fs dt n1 db =
      db ++ docsOf (groupRows (build_attendance g1 df).rows)
        ((build_attendance g1 df).cols.filter (fun c => !(knownFields.contains c)))
        fs dt n1 :=
    importGroups_fresh hok1 hdb
  have hdb2 : ∀ kg ∈ groupRows (build_attendance g2 df).rows, ∀ s ∈ db,
      filterMatchB kg.1.1 kg.1.2 s = false := by
    intro kg2 hkg2 s hs
    rcases forall2_mem_right hF hkg2 with ⟨kg1, hkg1, hrel⟩
    rw [← hrel.1]
    exact hdb kg1 hkg1 s hs
  have himp2 : index_import g2 df fs dt n2 (index_import g1 df fs dt n1 db) =
      db ++ docsOf (groupRows (build_attendance g2 df).rows)
        ((build_attendance g2 df).cols.filter (fun c => !(knownFields.contains c)))
        fs dt n2 := by
    rw [himp1]
    exact importGroups_aligned hok2 hdb2 (reimport_docs_rel hF hok1.2)
  have hc1 := import_conclusions hok1 hdb himp1
  have hc2 := import_conclusions hok2 hdb2 himp2
  have e1 : importGroups (groupRows (build_attendance g1 df).rows)
      ((build_attendance g1 df).cols.filter (fun c => !(knownFields.contains c)))
      fs dt n1 db = index_import g1 df fs dt n1 db := rfl
  have e2 : importGroups (groupRows (build_attendance g2 df).rows)
      ((build_attendance g2 df).cols.filter (fun c => !(knownFields.contains c)))
      fs dt n2 (index_import g1 df fs dt n1 db) =
      index_import g2 df fs dt n2 (index_import g1 df fs dt n1 db) := rfl
  rw [e1] at hc1
  rw [e2] at hc2
  refine ⟨hc1.1, hc1.2, ?_, hc2.1, hF⟩
  rw [hc1.2, hc2.2, hF.length_eq]

/-- A second concrete uuid supply for the re-import. -/
def c4g2 : Nat → Str := fun n => 'v' :: List.replicate n 'x'

/-- C4 witness: the idempotence theorem applied to the concrete example table
over the empty store, discharging the recognized-days and no-prior-match
hypotheses. -/
theorem c4_witness :
    (index_import c5g c5df [] "20250910".data 1 []).length =
      ([] : Db).length + (groupRows (build_attendance c5g c5df).rows).length ∧
    (index_import c4g2 c5df [] "20250910".data 2
        (index_import c5g c5df [] "20250910".data 1 [])).length =
      (index_import c5g c5df [] "20250910".data 1 []).length :=
  ⟨(c4_reimport_idempotent c5g c4g2 c5df [] "20250910".data 1 2 []
      (by decide) (by decide)).2.1,
   (c4_reimport_idempotent c5g c4g2 c5df [] "20250910".data 1 2 []
      (by decide) (by decide)).2.2.1⟩

/-! ## save_attendance and add_row (SOURCE app.py lines 353-535) -/

/-- The parallel form lists of the edit batch (request.form.getlist).
Index i beyond a list's length reads as "" (the Python idiom
xs[i] if i < len(xs) else ""). -/
structure EditForm where
  names : List Str
  ages : List Str
  parents : List Str
  comments : List Str
  fees : List Str
  row_ids : List Str
  delete_flags : List Str

/-- Mongo $set of one document field: replace the first binding or append. -/
def setField (r : Row) (k v : Str) : Row :=
  match r with
  | [] => [(k, v)]
  | (q, w) :: t => if q == k then (q, v) :: t else (q, w) :: setField t k v

/-- Apply a list of field assignments in order (Python dict build + $set:
a later assignment to the same key wins). -/
def applyFields (r : Row) (fields : List (Str × Str)) : Row :=
  fields.foldl (fun r kv => setField r kv.1 kv.2) r

/-- SOURCE lines 414-421: the update_fields dict for submitted row i: the
five editable core fields plus one entry per submitted dynamic column. -/
def updateFieldsAt (form : EditForm) (dyn : List (Str × List Str)) (i : Nat) :
    List (Str × Str) :=
  [(kName, form.names.getD i []), (kAge, form.ages.getD i []),
   (kMemberName, form.parents.getD i []), (kComments, form.comments.getD i []),
   (kFee, form.fees.getD i [])] ++ dyn.map (fun cv => (cv.1, cv.2.getD i []))

/-- SOURCE lines 431-442 / 447-458: the new_row dict pushed for row i with
row id rid, including the submitted dynamic columns (dict semantics). -/
def newRowAt (day clinic rid : Str) (form : EditForm) (dyn : List (Str × List Str))
    (i : Nat) : Row :=
  applyFields
    [(kRowId, rid), (kDay, day), (kClinic, clinic),
     (kName, form.names.getD i []), (kAge, form.ages.getD i []),
     (kMemberName, form.parents.getD i []), (kComments, form.comments.getD i []),
     (kFee, form.fees.getD i [])]
    (dyn.map (fun cv => (cv.1, cv.2.getD i [])))

/-- SOURCE lines 404-460, one iteration of the row loop on the target sheet:
delete-flagged ids are pulled; a truthy rid is updated in place when present
(all elements matching the rid) and pushed as a new row otherwise; a falsy
rid gets a fresh uuid and is pushed. -/
def saveStep (day clinic : Str) (form : EditForm) (dyn : List (Str × List Str))
    (fresh : Nat → Str) (rows : List Row) (i : Nat) : List Row :=
  let rid := form.row_ids.getD i []
  if rid ≠ [] ∧ form.delete_flags.getD i [] = "1".data then
    rows.filter (fun r => !(List.lookup kRowId r == some rid))
  else if rid ≠ [] then
    if rows.any (fun r => List.lookup kRowId r == some rid) then
      rows.map (fun r =>
        if List.lookup kRowId r == some rid then applyFields r (updateFieldsAt form dyn i)
        else r)
    else rows ++ [newRowAt day clinic rid form dyn i]
  else rows ++ [newRowAt day clinic (fresh i) form dyn i]

/-- The whole row loop over the target sheet's rows array. -/
def saveRows (day clinic : Str) (form : EditForm) (dyn : List (Str × List Str))
    (fresh : Nat → Str) (rows : List Row) : List Row :=
  (List.range form.names.length).foldl (saveStep day clinic form dyn fresh) rows

/-- SOURCE lines 371-376: the union of dynamic_columns across all sheets
(Python builds a set; we keep first-appearance order, which no caller
depends on). -/
def unionDynCols (db : Db) : List Str :=
  db.foldl
    (fun acc s =>
      s.dynamic_columns.foldl (fun acc c => if acc.contains c then acc else acc ++ [c])
        acc)
    []

/-- SOURCE lines 381-391: keep only the dynamic columns actually present in
the POST (key date__col), padding the value list to the row count. -/
def dynamicValues (db : Db) (submitted : List (Str × List Str)) (n : Nat) :
    List (Str × List Str) :=
  (unionDynCols db).filterMap (fun c =>
    (submitted.lookup c).map (fun vs => (c, vs ++ List.replicate (n - vs.length) [])))

/-- Python sorted(...) on strings. -/
def sortStrs (l : List Str) : List Str :=
  List.insertionSort (fun a b : Str => leS a b = true) l

def dedupStrs (l : List Str) : List Str :=
  l.foldl (fun acc c => if acc.contains c then acc else acc ++ [c]) []

/-- Mongo update_one by filename: rewrite the first matching document. -/
def updateFirst (p : Sheet → Bool) (f : Sheet → Sheet) : Db → Db
  | [] => []
  | s :: t => if p s then f s :: t else s :: updateFirst p f t

/-- SOURCE lines 463-481: the rows of the brand-new sheet created when no
target exists: non-deleted submitted rows, keeping a truthy submitted rid and
generating a fresh uuid otherwise. -/
def saveNewRows (day clinic : Str) (form : EditForm) (dyn : List (Str × List Str))
    (fresh : Nat → Str) : List Row :=
  (List.range form.names.length).foldl
    (fun acc i =>
      if form.delete_flags.getD i [] = "1".data then acc
      else
        acc ++ [newRowAt day clinic
          (if form.row_ids.getD i [] ≠ [] then form.row_ids.getD i [] else fresh i)
          form dyn i])
    []

/-- SOURCE save_attendance lines 353-489.  With a target sheet (first
elem-match on day+clinic) the dynamic column list is merged (sorted union)
and the row loop is applied to its rows; with no target a brand-new sheet is
created from the non-deleted submitted rows and stored by replace-by-filename
upsert (save_sheet_to_db). -/
def save_attendance (day clinic : Str) (form : EditForm)
    (submitted : List (Str × List Str)) (fresh : Nat → Str) (dt : Str) (now : Nat)
    (db : Db) : Db :=
  let n := form.names.length
  let dynCols := unionDynCols db
  let dyn := dynamicValues db submitted n
  match db.find? (elemMatchB day clinic) with
  | some target =>
    let mergedDyn := sortStrs (dedupStrs (target.dynamic_columns ++ dynCols))
    let newDyn := if mergedDyn ≠ sortStrs target.dynamic_columns then mergedDyn
      else target.dynamic_columns
    updateFirst (fun s => s.filename == target.filename)
      (fun s =>
        { s with dynamic_columns := newDyn,
                 rows := saveRows day clinic form dyn fresh s.rows })
      db
  | none =>
    replaceOne (fun s => s.filename == importFilename day clinic dt)
      ⟨importFilename day clinic dt, saveNewRows day clinic form dyn fresh, dynCols,
       SESSION_NAME, now⟩ db

/-- Pick the most recent (created_at) matching sheet, first wins ties. -/
def findLatest (p : Sheet → Bool) (db : Db) : Option Sheet :=
  (db.filter p).foldl
    (fun acc s =>
      match acc with
      | none => some s
      | some t => if s.created_at > t.created_at then some s else acc)
    none

/-- SOURCE add_row lines 491-535: find the target sheet by elem-match, else
by the day_Clinic filename prefix (latest); push a blank row carrying every
dynamic column of the target; with no target at all, create a new sheet
holding just the blank row. -/
def add_row (day clinic uuid : Str) (dt : Str) (now : Nat) (db : Db) : Db :=
  let blank : Row :=
    [(kRowId, uuid), (kDay, day), (kClinic, clinic), (kName, []), (kAge, []),
     (kMemberName, []), (kComments, []), (kFee, [])]
  let target :=
    match db.find? (elemMatchB day clinic) with
    | some s => some s
    | none => findLatest
        (fun s => (day ++ ('_' :: removeWs clinic)).isPrefixOf s.filename) db
  match target with
  | some s =>
    updateFirst (fun q => q.filename == s.filename)
      (fun q =>
        { q with rows := q.rows ++
            [applyFields blank (s.dynamic_columns.map (fun c => (c, [])))] })
      db
  | none =>
    replaceOne (fun q => q.filename == importFilename day clinic dt)
      ⟨importFilename day clinic dt, [blank], [], SESSION_NAME, now⟩ db

/-! ## Claim C2: no-target behaviour of save_attendance and add_row -/

theorem mem_replaceOne_self (p : Sheet → Bool) (doc : Sheet) (db : Db) :
    doc ∈ replaceOne p doc db := by
  induction db with
  | nil => exact List.mem_singleton.mpr rfl
  | cons s t ih =>
    unfold replaceOne
    by_cases h : p s = true
    · rw [if_pos h]
      exact List.mem_cons_self _ _
    · rw [if_neg h]
      exact List.mem_cons_of_mem _ ih

/-- The edit form used in the C2 counterexample: one submitted row, no rid,
no delete flag. -/
def c2form : EditForm :=
  ⟨["A".data], ["7".data], ["P".data], ["c".data], ["f".data], [[]], [[]]⟩

/-- C2 counterexample: on a store with NO group for (Monday, Red Ball
Clinic), save_attendance does not abort: it writes a brand-new sheet (the
store changes and afterwards a group for the pair exists); add_row likewise
creates a sheet.  This refutes "returns a distinguishable not-found outcome
and aborts without any partial writes; never silently creates a new group". -/
theorem c2_counterexample :
    save_attendance "Monday".data "Red Ball Clinic".data c2form [] c5g
        "20250910".data 3 [] ≠ ([] : Db) ∧
    (∃ s ∈ save_attendance "Monday".data "Red Ball Clinic".data c2form [] c5g
        "20250910".data 3 [],
      elemMatchB "Monday".data "Red Ball Clinic".data s = true) ∧
    add_row "Monday".data "Red Ball Clinic".data "u1".data "20250910".data 3 [] ≠
      ([] : Db) := by
  refine ⟨by decide, by decide, by decide⟩

/-- C2 amended: when no stored group elem-matches (day, category), the
operations do NOT abort: save_attendance creates a brand-new sheet (upserted
by filename) containing the non-deleted submitted rows with the union of the
known dynamic columns, and add_row (when the filename-prefix fallback also
finds nothing) creates a brand-new sheet containing exactly the blank row;
callers are only shown a flash message, never a not-found error. -/
theorem c2_group_autocreated :
    (∀ (day clinic : Str) (form : EditForm) (submitted : List (Str × List Str))
        (fresh : Nat → Str) (dt : Str) (now : Nat) (db : Db),
      db.find? (elemMatchB day clinic) = none →
      (⟨importFilename day clinic dt,
        saveNewRows day clinic form
          (dynamicValues db submitted form.names.length) fresh,
        unionDynCols db, SESSION_NAME, now⟩ : Sheet) ∈
          save_attendance day clinic form submitted fresh dt now db) ∧
    (∀ (day clinic uuid dt : Str) (now : Nat) (db : Db),
      db.find? (elemMatchB day clinic) = none →
      findLatest (fun s => (day ++ ('_' :: removeWs clinic)).isPrefixOf s.filename)
        db = none →
      (⟨importFilename day clinic dt,
        [[(kRowId, uuid), (kDay, day), (kClinic, clinic), (kName, []), (kAge, []),
          (kMemberName, []), (kComments, []), (kFee, [])]],
        [], SESSION_NAME, now⟩ : Sheet) ∈ add_row day clinic uuid dt now db) := by
  constructor
  · intro day clinic form submitted fresh dt now db hfind
    unfold save_attendance
    rw [hfind]
    exact mem_replaceOne_self _ _ _
  · intro day clinic uuid dt now db hfind hlatest
    unfold add_row
    rw [hfind, hlatest]
    exact mem_replaceOne_self _ _ _

/-- C2 witness: the amended theorem applied to the empty store. -/
theorem c2_witness :
    (⟨importFilename "Monday".data "Red Ball Clinic".data "20250910".data,
      saveNewRows "Monday".data "Red Ball Clinic".data c2form
        (dynamicValues [] [] c2form.names.length) c5g,
      unionDynCols [], SESSION_NAME, 3⟩ : Sheet) ∈
        save_attendance "Monday".data "Red Ball Clinic".data c2form [] c5g
          "20250910".data 3 [] ∧
    (⟨importFilename "Monday".data "Red Ball Clinic".data "20250910".data,
      [[(kRowId, "u1".data), (kDay, "Monday".data),
        (kClinic, "Red Ball Clinic".data), (kName, []), (kAge, []),
        (kMemberName, []), (kComments, []), (kFee, [])]],
      [], SESSION_NAME, 3⟩ : Sheet) ∈
        add_row "Monday".data "Red Ball Clinic".data "u1".data "20250910".data 3 [] :=
  ⟨c2_group_autocreated.1 "Monday".data "Red Ball Clinic".data c2form [] c5g
      "20250910".data 3 [] (by decide),
   c2_group_autocreated.2 "Monday".data "Red Ball Clinic".data "u1".data
      "20250910".data 3 [] (by decide) (by decide)⟩

/-! ## Claims C1 and C8: field updates on a row -/

theorem bool_false_of_not {b : Bool} (h : ¬ b = true) : b = false := by
  cases b
  · rfl
  · exact absurd rfl h

theorem lookup_setField_self (r : Row) (k v : Str) :
    List.lookup k (setField r k v) = some v := by
  induction r with
  | nil => exact lookup_cons_eq _ _ _
  | cons qw t ih =>
    rcases qw with ⟨q, w⟩
    unfold setField
    by_cases h : (q == k) = true
    · rw [if_pos h]
      have hq : q = k := eq_of_beq h
      subst hq
      exact lookup_cons_eq _ _ _
    · rw [if_neg h]
      have h2 : (k == q) = false := by
        rw [beq_eq_false_iff_ne]
        intro he
        exact h (by rw [he]; exact beq_self_eq_true _)
      rw [lookup_cons_ne _ _ h2]
      exact ih

theorem lookup_setField_ne {k q2 : Str} (r : Row) (v : Str) (h : (k == q2) = false) :
    List.lookup k (setField r q2 v) = List.lookup k r := by
  induction r with
  | nil =>
    unfold setField
    rw [lookup_cons_ne _ _ h]
  | cons qw t ih =>
    rcases qw with ⟨q, w⟩
    unfold setField
    by_cases hq : (q == q2) = true
    · rw [if_pos hq]
      have hqq : q = q2 := eq_of_beq hq
      subst hqq
      rw [lookup_cons_ne _ _ h, lookup_cons_ne _ _ h]
    · rw [if_neg hq]
      by_cases hk : (k == q) = true
      · have hkq : k = q := eq_of_beq hk
        subst hkq
        rw [lookup_cons_eq, lookup_cons_eq]
      · have hk2 : (k == q) = false := bool_false_of_not hk
        rw [lookup_cons_ne _ _ hk2, lookup_cons_ne _ _ hk2]
        exact ih

theorem applyFields_append (r : Row) (a b : List (Str × Str)) :
    applyFields r (a ++ b) = applyFields (applyFields r a) b :=
  List.foldl_append _ _ _ _

theorem lookup_applyFields_not_mem {r : Row} {fields : List (Str × Str)} {k : Str}
    (h : ∀ kv ∈ fields, (k == kv.1) = false) :
    List.lookup k (applyFields r fields) = List.lookup k r := by
  induction fields generalizing r with
  | nil => rfl
  | cons kv t ih =>
    show List.lookup k (applyFields (setField r kv.1 kv.2) t) = List.lookup k r
    rw [ih (fun q hq => h q (List.mem_cons_of_mem _ hq))]
    exact lookup_setField_ne _ _ (h kv (List.mem_cons_self _ _))

theorem lookup_applyFields_last {r : Row} {pre post : List (Str × Str)} {k v : Str}
    (h : ∀ kv ∈ post, (k == kv.1) = false) :
    List.lookup k (applyFields r (pre ++ (k, v) :: post)) = some v := by
  rw [applyFields_append]
  show List.lookup k (applyFields (setField (applyFields r pre) k v) post) = some v
  rw [lookup_applyFields_not_mem h, lookup_setField_self]

theorem lookup_update_frame {form : EditForm} {dyn : List (Str × List Str)} {i : Nat}
    {col : Str} {r : Row}
    (hcore : col ∉ ([kName, kAge, kMemberName, kComments, kFee] : List Str))
    (hdyn : ∀ cv ∈ dyn, (col == cv.1) = false) :
    List.lookup col (applyFields r (updateFieldsAt form dyn i)) = List.lookup col r := by
  apply lookup_applyFields_not_mem
  intro kv hkv
  unfold updateFieldsAt at hkv
  rcases List.mem_append.mp hkv with h | h
  · simp only [List.mem_cons, List.mem_singleton] at h
    rcases h with rfl | rfl | rfl | rfl | rfl | h
    · rw [beq_eq_false_iff_ne]
      intro he
      exact hcore (by rw [he]; simp)
    · rw [beq_eq_false_iff_ne]
      intro he
      exact hcore (by rw [he]; simp)
    · rw [beq_eq_false_iff_ne]
      intro he
      exact hcore (by rw [he]; simp)
    · rw [beq_eq_false_iff_ne]
      intro he
      exact hcore (by rw [he]; simp)
    · rw [beq_eq_false_iff_ne]
      intro he
      exact hcore (by rw [he]; simp)
    · simp at h
  · rcases List.mem_map.mp h with ⟨cv, hcv, rfl⟩
    exact hdyn cv hcv

theorem lookup_update_rowId {form : EditForm} {dyn : List (Str × List Str)} {i : Nat}
    {r : Row} (hdyn : ∀ cv ∈ dyn, (kRowId == cv.1) = false) :
    List.lookup kRowId (applyFields r (updateFieldsAt form dyn i)) =
      List.lookup kRowId r :=
  lookup_update_frame (by decide) hdyn

theorem lookup_newRowAt_rowId {day clinic rid : Str} {form : EditForm}
    {dyn : List (Str × List Str)} {i : Nat}
    (hdyn : ∀ cv ∈ dyn, (kRowId == cv.1) = false) :
    List.lookup kRowId (newRowAt day clinic rid form dyn i) = some rid := by
  unfold newRowAt
  rw [lookup_applyFields_not_mem (fun kv hkv => by
    rcases List.mem_map.mp hkv with ⟨cv, hcv, rfl⟩
    exact hdyn cv hcv)]
  exact lookup_cons_eq _ _ _

theorem some_beq_false {a b : Str} (h : a ≠ b) :
    ((some a : Option Str) == some b) = false := by
  rw [beq_eq_false_iff_ne]
  intro he
  exact h (Option.some.inj he)

theorem saveStep_preserves {day clinic : Str} {form : EditForm}
    {dyn : List (Str × List Str)} {fresh : Nat → Str} {rows : List Row} {i : Nat}
    {rid col : Str} {val : Option Str}
    (hdynrow : ∀ cv ∈ dyn, (kRowId == cv.1) = false)
    (hcore : col ∉ ([kName, kAge, kMemberName, kComments, kFee] : List Str))
    (hdyncol : ∀ cv ∈ dyn, (col == cv.1) = false)
    (hnodel : ¬(form.row_ids.getD i [] = rid ∧
      form.delete_flags.getD i [] = "1".data))
    (h : ∃ r ∈ rows, List.lookup kRowId r = some rid ∧ List.lookup col r = val) :
    ∃ r ∈ saveStep day clinic form dyn fresh rows i,
      List.lookup kRowId r = some rid ∧ List.lookup col r = val := by
  rcases h with ⟨r, hr, hrid, hcol⟩
  unfold saveStep
  by_cases hdel : (form.row_ids.getD i [] ≠ [] ∧
      form.delete_flags.getD i [] = "1".data)
  · rw [if_pos hdel]
    refine ⟨r, List.mem_filter.mpr ⟨hr, ?_⟩, hrid, hcol⟩
    have hne : rid ≠ form.row_ids.getD i [] := fun he => hnodel ⟨he.symm, hdel.2⟩
    rw [hrid, some_beq_false hne]
    rfl
  · rw [if_neg hdel]
    by_cases htr : form.row_ids.getD i [] ≠ []
    · rw [if_pos htr]
      by_cases hcont : (rows.any
          (fun r => List.lookup kRowId r == some (form.row_ids.getD i []))) = true
      · rw [if_pos hcont]
        by_cases hmatch :
            (List.lookup kRowId r == some (form.row_ids.getD i [])) = true
        · refine ⟨applyFields r (updateFieldsAt form dyn i),
            List.mem_map.mpr ⟨r, hr, by rw [if_pos hmatch]⟩, ?_, ?_⟩
          · rw [lookup_update_rowId hdynrow, hrid]
          · rw [lookup_update_frame hcore hdyncol, hcol]
        · refine ⟨r, List.mem_map.mpr ⟨r, hr,
            by rw [if_neg (by rw [bool_false_of_not hmatch]; simp)]⟩, hrid, hcol⟩
      · rw [if_neg hcont]
        exact ⟨r, List.mem_append_left _ hr, hrid, hcol⟩
    · rw [if_neg htr]
      exact ⟨r, List.mem_append_left _ hr, hrid, hcol⟩

theorem saveStep_Q_preserve {day clinic : Str} {form : EditForm}
    {dyn : List (Str × List Str)} {fresh : Nat → Str} {rows : List Row} {i : Nat}
    {rid col : Str}
    (hdynrow : ∀ cv ∈ dyn, (kRowId == cv.1) = false)
    (hrne : form.row_ids.getD i [] ≠ rid)
    (hfne : fresh i ≠ rid)
    (hQ : ∀ r ∈ rows, List.lookup kRowId r = some rid → List.lookup col r = some []) :
    ∀ r ∈ saveStep day clinic form dyn fresh rows i,
      List.lookup kRowId r = some rid → List.lookup col r = some [] := by
  intro r hrin hrid
  unfold saveStep at hrin
  by_cases hdel : (form.row_ids.getD i [] ≠ [] ∧
      form.delete_flags.getD i [] = "1".data)
  · rw [if_pos hdel] at hrin
    exact hQ r (List.mem_of_mem_filter hrin) hrid
  · rw [if_neg hdel] at hrin
    by_cases htr : form.row_ids.getD i [] ≠ []
    · rw [if_pos htr] at hrin
      by_cases hcont : (rows.any
          (fun r => List.lookup kRowId r == some (form.row_ids.getD i []))) = true
      · rw [if_pos hcont] at hrin
        rcases List.mem_map.mp hrin with ⟨r0, hr0, rfl⟩
        by_cases hmatch :
            (List.lookup kRowId r0 == some (form.row_ids.getD i [])) = true
        · rw [if_pos hmatch] at hrid ⊢
          rw [lookup_update_rowId hdynrow] at hrid
          have := eq_of_beq hmatch
          rw [hrid] at this
          exact absurd (Option.some.inj this) (fun he => hrne he.symm)
        · rw [if_neg hmatch] at hrid ⊢
          exact hQ r0 hr0 hrid
      · rw [if_neg hcont] at hrin
        rcases List.mem_append.mp hrin with h2 | h2
        · exact hQ r h2 hrid
        · rcases List.mem_singleton.mp h2 with rfl
          rw [lookup_newRowAt_rowId hdynrow] at hrid
          exact absurd (Option.some.inj hrid) hrne
    · rw [if_neg htr] at hrin
      rcases List.mem_append.mp hrin with h2 | h2
      · exact hQ r h2 hrid
      · rcases List.mem_singleton.mp h2 with rfl
        rw [lookup_newRowAt_rowId hdynrow] at hrid
        exact absurd (Option.some.inj hrid) hfne

theorem lookup_update_dyn {form : EditForm} {dyn : List (Str × List Str)} {i : Nat}
    {r : Row} {cv : Str × List Str}
    (hnd : (dyn.map Prod.fst).Nodup) (hcv : cv ∈ dyn) :
    List.lookup cv.1 (applyFields r (updateFieldsAt form dyn i)) =
      some (cv.2.getD i []) := by
  rcases List.append_of_mem hcv with ⟨pre, post, rfl⟩
  have hpost : ∀ kv ∈ post.map (fun cv => (cv.1, cv.2.getD i [])),
      (cv.1 == kv.1) = false := by
    intro kv hkv
    rcases List.mem_map.mp hkv with ⟨cv2, hcv2, rfl⟩
    rw [beq_eq_false_iff_ne]
    intro he
    have hnp : cv.1 ∉ post.map Prod.fst := by
      simp only [List.map_append, List.map_cons] at hnd
      rcases List.nodup_append.mp hnd with ⟨_, hnd2, _⟩
      exact (List.nodup_cons.mp hnd2).1
    exact hnp (List.mem_map.mpr ⟨cv2, hcv2, he.symm⟩)
  unfold updateFieldsAt
  rw [List.map_append, List.map_cons, ← List.append_assoc]
  exact lookup_applyFields_last hpost

theorem lookup_newRowAt_dyn {day clinic rid : Str} {form : EditForm}
    {dyn : List (Str × List Str)} {i : Nat} {cv : Str × List Str}
    (hnd : (dyn.map Prod.fst).Nodup) (hcv : cv ∈ dyn) :
    List.lookup cv.1 (newRowAt day clinic rid form dyn i) =
      some (cv.2.getD i []) := by
  rcases List.append_of_mem hcv with ⟨pre, post, rfl⟩
  have hpost : ∀ kv ∈ post.map (fun cv => (cv.1, cv.2.getD i [])),
      (cv.1 == kv.1) = false := by
    intro kv hkv
    rcases List.mem_map.mp hkv with ⟨cv2, hcv2, rfl⟩
    rw [beq_eq_false_iff_ne]
    intro he
    have hnp : cv.1 ∉ post.map Prod.fst := by
      simp only [List.map_append, List.map_cons] at hnd
      rcases List.nodup_append.mp hnd with ⟨_, hnd2, _⟩
      exact (List.nodup_cons.mp hnd2).1
    exact hnp (List.mem_map.mpr ⟨cv2, hcv2, he.symm⟩)
  unfold newRowAt
  rw [List.map_append, List.map_cons]
  exact lookup_applyFields_last hpost

theorem lookup_newRowAt_core {day clinic rid : Str} {form : EditForm}
    {dyn : List (Str × List Str)} {i : Nat} {k : Str}
    (hk : ∀ cv ∈ dyn, (k == cv.1) = false) :
    List.lookup k (newRowAt day clinic rid form dyn i) =
      List.lookup k
        [(kRowId, rid), (kDay, day), (kClinic, clinic),
         (kName, form.names.getD i []), (kAge, form.ages.getD i []),
         (kMemberName, form.parents.getD i []),
         (kComments, form.comments.getD i []), (kFee, form.fees.getD i [])] := by
  unfold newRowAt
  exact lookup_applyFields_not_mem (fun kv hkv => by
    rcases List.mem_map.mp hkv with ⟨cv, hcv, rfl⟩
    exact hk cv hcv)

theorem saveStep_Q_establish {day clinic : Str} {form : EditForm}
    {dyn : List (Str × List Str)} {fresh : Nat → Str} {rows : List Row} {i : Nat}
    {rid col : Str} {vs : List Str}
    (hnd : (dyn.map Prod.fst).Nodup)
    (hmem : (col, vs) ∈ dyn)
    (hvs : vs.getD i [] = [])
    (htr : form.row_ids.getD i [] = rid)
    (hrne : rid ≠ [])
    (hflag : form.delete_flags.getD i [] ≠ "1".data)
    (hex : ∃ r ∈ rows, List.lookup kRowId r = some rid) :
    ∀ r ∈ saveStep day clinic form dyn fresh rows i,
      List.lookup kRowId r = some rid → List.lookup col r = some [] := by
  intro r hrin hrid
  unfold saveStep at hrin
  rw [if_neg (fun hc =>
    hflag (hc.2 : form.delete_flags.getD i [] = "1".data))] at hrin
  rw [if_pos (show form.row_ids.getD i [] ≠ [] by rw [htr]; exact hrne)] at hrin
  have hcont : (rows.any
      (fun r => List.lookup kRowId r == some (form.row_ids.getD i []))) = true := by
    rcases hex with ⟨r0, hr0, hrid0⟩
    rw [List.any_eq_true]
    refine ⟨r0, hr0, ?_⟩
    rw [hrid0, htr]
    exact beq_self_eq_true _
  rw [if_pos hcont] at hrin
  rcases List.mem_map.mp hrin with ⟨r0, hr0, rfl⟩
  by_cases hmatch : (List.lookup kRowId r0 == some (form.row_ids.getD i [])) = true
  · rw [if_pos hmatch]
    have h2 := @lookup_update_dyn form dyn i r0 (col, vs) hnd hmem
    rw [hvs] at h2
    exact h2
  · rw [if_neg hmatch] at hrid
    exact absurd (by rw [hrid, htr]; exact beq_self_eq_true _) hmatch

theorem saveStep_N_preserve {day clinic : Str} {form : EditForm}
    {dyn : List (Str × List Str)} {fresh : Nat → Str} {rows : List Row} {i : Nat}
    {rid : Str}
    (hdynrow : ∀ cv ∈ dyn, (kRowId == cv.1) = false)
    (hrne : form.row_ids.getD i [] ≠ rid)
    (hfne : fresh i ≠ rid)
    (hN : ∀ r ∈ rows, List.lookup kRowId r ≠ some rid) :
    ∀ r ∈ saveStep day clinic form dyn fresh rows i,
      List.lookup kRowId r ≠ some rid := by
  intro r hrin hrid
  unfold saveStep at hrin
  by_cases hdel : (form.row_ids.getD i [] ≠ [] ∧
      form.delete_flags.getD i [] = "1".data)
  · rw [if_pos hdel] at hrin
    exact hN r (List.mem_of_mem_filter hrin) hrid
  · rw [if_neg hdel] at hrin
    by_cases htr : form.row_ids.getD i [] ≠ []
    · rw [if_pos htr] at hrin
      by_cases hcont : (rows.any
          (fun r => List.lookup kRowId r == some (form.row_ids.getD i []))) = true
      · rw [if_pos hcont] at hrin
        rcases List.mem_map.mp hrin with ⟨r0, hr0, rfl⟩
        by_cases hmatch :
            (List.lookup kRowId r0 == some (form.row_ids.getD i [])) = true
        · rw [if_pos hmatch] at hrid
          rw [lookup_update_rowId hdynrow] at hrid
          exact hN r0 hr0 hrid
        · rw [if_neg hmatch] at hrid
          exact hN r0 hr0 hrid
      · rw [if_neg hcont] at hrin
        rcases List.mem_append.mp hrin with h2 | h2
        · exact hN r h2 hrid
        · rcases List.mem_singleton.mp h2 with rfl
          rw [lookup_newRowAt_rowId hdynrow] at hrid
          exact hrne (Option.some.inj hrid)
    · rw [if_neg htr] at hrin
      rcases List.mem_append.mp hrin with h2 | h2
      · exact hN r h2 hrid
      · rcases List.mem_singleton.mp h2 with rfl
        rw [lookup_newRowAt_rowId hdynrow] at hrid
        exact hfne (Option.some.inj hrid)

theorem saveStep_N_establish {day clinic : Str} {form : EditForm}
    {dyn : List (Str × List Str)} {fresh : Nat → Str} {rows : List Row} {i : Nat}
    {rid : Str}
    (htr : form.row_ids.getD i [] = rid) (hrne : rid ≠ [])
    (hflag : form.delete_flags.getD i [] = "1".data) :
    ∀ r ∈ saveStep day clinic form dyn fresh rows i,
      List.lookup kRowId r ≠ some rid := by
  intro r hrin hrid
  unfold saveStep at hrin
  rw [if_pos ⟨show form.row_ids.getD i [] ≠ [] by rw [htr]; exact hrne, hflag⟩] at hrin
  have := (List.mem_filter.mp hrin).2
  rw [hrid, htr] at this
  rw [beq_self_eq_true] at this
  exact absurd this (by simp)

theorem saveStep_M_preserve {day clinic : Str} {form : EditForm}
    {dyn : List (Str × List Str)} {fresh : Nat → Str} {rows : List Row} {i : Nat}
    {rid : Str} {x : Row}
    (hrne : form.row_ids.getD i [] ≠ rid)
    (hx : x ∈ rows) (hxid : List.lookup kRowId x = some rid) :
    x ∈ saveStep day clinic form dyn fresh rows i := by
  unfold saveStep
  by_cases hdel : (form.row_ids.getD i [] ≠ [] ∧
      form.delete_flags.getD i [] = "1".data)
  · rw [if_pos hdel]
    refine List.mem_filter.mpr ⟨hx, ?_⟩
    rw [hxid, some_beq_false (fun he => hrne he.symm)]
    rfl
  · rw [if_neg hdel]
    by_cases htr : form.row_ids.getD i [] ≠ []
    · rw [if_pos htr]
      by_cases hcont : (rows.any
          (fun r => List.lookup kRowId r == some (form.row_ids.getD i []))) = true
      · rw [if_pos hcont]
        refine List.mem_map.mpr ⟨x, hx, ?_⟩
        rw [if_neg (by rw [hxid, some_beq_false (fun he => hrne he.symm)]; simp)]
      · rw [if_neg hcont]
        exact List.mem_append_left _ hx
    · rw [if_neg htr]
      exact List.mem_append_left _ hx

theorem saveStep_M_establish {day clinic : Str} {form : EditForm}
    {dyn : List (Str × List Str)} {fresh : Nat → Str} {rows : List Row} {i : Nat}
    {rid : Str}
    (htr : form.row_ids.getD i [] = rid) (hrne : rid ≠ [])
    (hflag : form.delete_flags.getD i [] ≠ "1".data)
    (hN : ∀ r ∈ rows, List.lookup kRowId r ≠ some rid) :
    newRowAt day clinic rid form dyn i ∈ saveStep day clinic form dyn fresh rows i := by
  unfold saveStep
  rw [if_neg (fun hc =>
    hflag (hc.2 : form.delete_flags.getD i [] = "1".data))]
  rw [if_pos (show form.row_ids.getD i [] ≠ [] by rw [htr]; exact hrne)]
  have hcont : (rows.any
      (fun r => List.lookup kRowId r == some (form.row_ids.getD i []))) = false := by
    rw [List.any_eq_false]
    intro r hr
    rw [htr]
    intro hbeq
    exact hN r hr (eq_of_beq hbeq)
  rw [if_neg (by rw [hcont]; simp)]
  rw [htr]
  exact List.mem_append_right _ (List.mem_singleton.mpr rfl)

theorem foldSteps_preserves {day clinic : Str} {form : EditForm}
    {dyn : List (Str × List Str)} {fresh : Nat → Str} {rid col : Str}
    {val : Option Str}
    (hdynrow : ∀ cv ∈ dyn, (kRowId == cv.1) = false)
    (hcore : col ∉ ([kName, kAge, kMemberName, kComments, kFee] : List Str))
    (hdyncol : ∀ cv ∈ dyn, (col == cv.1) = false) :
    ∀ (l : List Nat) (rows : List Row),
      (∀ j ∈ l, ¬(form.row_ids.getD j [] = rid ∧
        form.delete_flags.getD j [] = "1".data)) →
      (∃ r ∈ rows, List.lookup kRowId r = some rid ∧ List.lookup col r = val) →
      ∃ r ∈ l.foldl (saveStep day clinic form dyn fresh) rows,
        List.lookup kRowId r = some rid ∧ List.lookup col r = val := by
  intro l
  induction l with
  | nil => intro rows _ h; exact h
  | cons j t ih =>
    intro rows hl h
    simp only [List.foldl_cons]
    exact ih _ (fun q hq => hl q (List.mem_cons_of_mem _ hq))
      (saveStep_preserves hdynrow hcore hdyncol (hl j (List.mem_cons_self j t)) h)

theorem foldSteps_Q {day clinic : Str} {form : EditForm}
    {dyn : List (Str × List Str)} {fresh : Nat → Str} {rid col : Str}
    (hdynrow : ∀ cv ∈ dyn, (kRowId == cv.1) = false) :
    ∀ (l : List Nat) (rows : List Row),
      (∀ j ∈ l, form.row_ids.getD j [] ≠ rid ∧ fresh j ≠ rid) →
      (∀ r ∈ rows, List.lookup kRowId r = some rid → List.lookup col r = some []) →
      ∀ r ∈ l.foldl (saveStep day clinic form dyn fresh) rows,
        List.lookup kRowId r = some rid → List.lookup col r = some [] := by
  intro l
  induction l with
  | nil => intro rows _ h; exact h
  | cons j t ih =>
    intro rows hl h
    simp only [List.foldl_cons]
    exact ih _ (fun q hq => hl q (List.mem_cons_of_mem _ hq))
      (saveStep_Q_preserve hdynrow (hl j (List.mem_cons_self j t)).1
        (hl j (List.mem_cons_self j t)).2 h)

theorem foldSteps_N {day clinic : Str} {form : EditForm}
    {dyn : List (Str × List Str)} {fresh : Nat → Str} {rid : Str}
    (hdynrow : ∀ cv ∈ dyn, (kRowId == cv.1) = false) :
    ∀ (l : List Nat) (rows : List Row),
      (∀ j ∈ l, form.row_ids.getD j [] ≠ rid ∧ fresh j ≠ rid) →
      (∀ r ∈ rows, List.lookup kRowId r ≠ some rid) →
      ∀ r ∈ l.foldl (saveStep day clinic form dyn fresh) rows,
        List.lookup kRowId r ≠ some rid := by
  intro l
  induction l with
  | nil => intro rows _ h; exact h
  | cons j t ih =>
    intro rows hl h
    simp only [List.foldl_cons]
    exact ih _ (fun q hq => hl q (List.mem_cons_of_mem _ hq))
      (saveStep_N_preserve hdynrow (hl j (List.mem_cons_self j t)).1
        (hl j (List.mem_cons_self j t)).2 h)

theorem foldSteps_M {day clinic : Str} {form : EditForm}
    {dyn : List (Str × List Str)} {fresh : Nat → Str} {rid : Str} {x : Row}
    (hxid : List.lookup kRowId x = some rid) :
    ∀ (l : List Nat) (rows : List Row),
      (∀ j ∈ l, form.row_ids.getD j [] ≠ rid) →
      x ∈ rows →
      x ∈ l.foldl (saveStep day clinic form dyn fresh) rows := by
  intro l
  induction l with
  | nil => intro rows _ h; exact h
  | cons j t ih =>
    intro rows hl h
    simp only [List.foldl_cons]
    exact ih _ (fun q hq => hl q (List.mem_cons_of_mem _ hq))
      (saveStep_M_preserve (hl j (List.mem_cons_self j t)) h hxid)

theorem range'_split (s m k : Nat) :
    List.range' s (m + k) = List.range' s m ++ List.range' (s + m) k := by
  induction m generalizing s with
  | zero => simp
  | succ m ih =>
    have h1 : m + 1 + k = (m + k) + 1 := by omega
    rw [h1]
    show s :: List.range' (s + 1) (m + k) =
      (s :: List.range' (s + 1) m) ++ List.range' (s + (m + 1)) k
    rw [ih]
    simp only [List.cons_append]
    have h2 : s + 1 + m = s + (m + 1) := by omega
    rw [h2]

theorem range_split {n i : Nat} (h : i < n) :
    List.range n = List.range' 0 i ++ i :: List.range' (i + 1) (n - i - 1) := by
  rw [List.range_eq_range']
  set k := n - i - 1 with hk
  have h1 : n = i + (1 + k) := by omega
  rw [h1, range'_split 0 i (1 + k)]
  have h2 : List.range' (0 + i) (1 + k) = i :: List.range' (i + 1) k := by
    have h3 : 0 + i = i := by omega
    have h4 : 1 + k = k + 1 := by omega
    rw [h3, h4]
    rfl
  rw [h2]

/-- C1 (confirmed): for an edit batch applied to a group (save_attendance row
loop, src/app.py lines 404-460), and a record matched by row_id that no
submitted row delete-flags:
(a) any column outside the five always-submitted editable core fields
(Name, Age, MemberName, Comments, Fee) and outside the submitted dynamic
columns -- in particular an ad-hoc extra column absent from the form, and
row_id itself -- keeps its stored value (including absence) on some surviving
record with that row_id;
(b) an ad-hoc column that IS submitted with empty value for the matching row
is set to the empty string on every record carrying that row_id, provided the
row_id is submitted exactly once and fresh uuids do not collide with it. -/
theorem c1_edit_preserves_unsent :
    (∀ (day clinic : Str) (form : EditForm) (dyn : List (Str × List Str))
      (fresh : Nat → Str) (rows : List Row) (rid col : Str) (val : Option Str),
      (∀ cv ∈ dyn, (kRowId == cv.1) = false) →
      col ∉ ([kName, kAge, kMemberName, kComments, kFee] : List Str) →
      (∀ cv ∈ dyn, (col == cv.1) = false) →
      (∀ j, j < form.names.length →
        ¬(form.row_ids.getD j [] = rid ∧ form.delete_flags.getD j [] = "1".data)) →
      (∃ r ∈ rows, List.lookup kRowId r = some rid ∧ List.lookup col r = val) →
      ∃ r ∈ saveRows day clinic form dyn fresh rows,
        List.lookup kRowId r = some rid ∧ List.lookup col r = val) ∧
    (∀ (day clinic : Str) (form : EditForm) (dyn : List (Str × List Str))
      (fresh : Nat → Str) (rows : List Row) (rid col : Str) (vs : List Str) (i : Nat),
      (∀ cv ∈ dyn, (kRowId == cv.1) = false) →
      (dyn.map Prod.fst).Nodup →
      (col, vs) ∈ dyn →
      i < form.names.length →
      vs.getD i [] = [] →
      form.row_ids.getD i [] = rid →
      rid ≠ [] →
      form.delete_flags.getD i [] ≠ "1".data →
      (∀ j, j < form.names.length → j ≠ i → form.row_ids.getD j [] ≠ rid) →
      (∀ j, j < form.names.length → fresh j ≠ rid) →
      (∃ r ∈ rows, List.lookup kRowId r = some rid) →
      ∀ r ∈ saveRows day clinic form dyn fresh rows,
        List.lookup kRowId r = some rid → List.lookup col r = some []) := by
  constructor
  · intro day clinic form dyn fresh rows rid col val hdynrow hcore hdyncol hnodel hex
    unfold saveRows
    exact foldSteps_preserves hdynrow hcore hdyncol _ rows
      (fun j hj => hnodel j (List.mem_range.mp hj)) hex
  · intro day clinic form dyn fresh rows rid col vs i
      hdynrow hnd hmem hi hvs htr hrne hflag huniq hfresh hex
    unfold saveRows
    rw [range_split hi, List.foldl_append, List.foldl_cons]
    have hpre : ∀ j ∈ List.range' 0 i,
        ¬(form.row_ids.getD j [] = rid ∧ form.delete_flags.getD j [] = "1".data) := by
      intro j hj hc
      have hb := List.mem_range'_1.mp hj
      exact huniq j (by omega) (by omega) hc.1
    have hex1 : ∃ r ∈ (List.range' 0 i).foldl (saveStep day clinic form dyn fresh) rows,
        List.lookup kRowId r = some rid := by
      rcases hex with ⟨r, hr, hq⟩
      rcases @foldSteps_preserves day clinic form dyn fresh rid kRowId (some rid)
        hdynrow (by decide) hdynrow (List.range' 0 i) rows hpre ⟨r, hr, hq, hq⟩
        with ⟨r2, hr2, hq2, _⟩
      exact ⟨r2, hr2, hq2⟩
    have hQ1 := @saveStep_Q_establish day clinic form dyn fresh _ i rid col vs
      hnd hmem hvs htr hrne hflag hex1
    refine foldSteps_Q hdynrow (List.range' (i + 1) (form.names.length - i - 1)) _
      ?_ hQ1
    intro j hj
    have hb := List.mem_range'_1.mp hj
    exact ⟨huniq j (by omega) (by omega), hfresh j (by omega)⟩

/-- Witness for c1_edit_preserves_unsent: the spec scenario. A stored record
with row_id r1 and ad-hoc column camp1 = "x"; the form submits Name = "B"
for r1. (a) with camp1 not among the submitted dynamic columns, camp1 keeps
value "x"; (b) with camp1 submitted as empty, camp1 becomes "". -/
theorem c1_witness :
    (∃ r ∈ saveRows "Monday".data "Red Ball Clinic".data
        ⟨["B".data], ["7".data], ["P".data], [[]], [[]], ["r1".data], [[]]⟩
        [] (fun _ => "u0".data)
        [[(kRowId, "r1".data), (kName, "A".data), ("camp1".data, "x".data)]],
      List.lookup kRowId r = some "r1".data ∧
      List.lookup "camp1".data r = some "x".data) ∧
    (∀ r ∈ saveRows "Monday".data "Red Ball Clinic".data
        ⟨["B".data], ["7".data], ["P".data], [[]], [[]], ["r1".data], [[]]⟩
        [("camp1".data, [[]])] (fun _ => "u0".data)
        [[(kRowId, "r1".data), (kName, "A".data), ("camp1".data, "x".data)]],
      List.lookup kRowId r = some "r1".data →
      List.lookup "camp1".data r = some []) := by
  constructor
  · exact c1_edit_preserves_unsent.1 "Monday".data "Red Ball Clinic".data
      ⟨["B".data], ["7".data], ["P".data], [[]], [[]], ["r1".data], [[]]⟩
      [] (fun _ => "u0".data)
      [[(kRowId, "r1".data), (kName, "A".data), ("camp1".data, "x".data)]]
      "r1".data "camp1".data (some "x".data)
      (by decide) (by decide) (by decide) (by decide) (by decide)
  · exact c1_edit_preserves_unsent.2 "Monday".data "Red Ball Clinic".data
      ⟨["B".data], ["7".data], ["P".data], [[]], [[]], ["r1".data], [[]]⟩
      [("camp1".data, [[]])] (fun _ => "u0".data)
      [[(kRowId, "r1".data), (kName, "A".data), ("camp1".data, "x".data)]]
      "r1".data "camp1".data [[]] 0
      (by decide) (by decide) (by decide) (by decide) (by decide) (by decide)
      (by decide) (by decide) (by decide) (by decide) (by decide)

/-- C8 (confirmed): in the save_attendance row loop (src/app.py lines
404-444), a submitted row whose non-empty row_id matches no record of the
target sheet is appended as a new record (no error outcome), and that record
is tagged with the given day and clinic and carries the submitted Name and
submitted dynamic-column values; a submitted row whose row_id appears with
delete flag "1" is removed instead: no surviving record carries that row_id.
Side conditions: row_id values are submitted at most once, fresh uuids do
not collide, and no submitted dynamic column is named row_id. -/
theorem c8_unknown_rowid_appends :
    (∀ (day clinic : Str) (form : EditForm) (dyn : List (Str × List Str))
      (fresh : Nat → Str) (rows : List Row) (rid : Str) (i : Nat),
      (∀ cv ∈ dyn, (kRowId == cv.1) = false) →
      i < form.names.length →
      form.row_ids.getD i [] = rid →
      rid ≠ [] →
      form.delete_flags.getD i [] ≠ "1".data →
      (∀ j, j < form.names.length → j ≠ i → form.row_ids.getD j [] ≠ rid) →
      (∀ j, j < form.names.length → fresh j ≠ rid) →
      (∀ r ∈ rows, List.lookup kRowId r ≠ some rid) →
      newRowAt day clinic rid form dyn i ∈ saveRows day clinic form dyn fresh rows) ∧
    (∀ (day clinic rid : Str) (form : EditForm) (dyn : List (Str × List Str)) (i : Nat),
      (∀ cv ∈ dyn, (kRowId == cv.1) = false) →
      (∀ cv ∈ dyn, (kDay == cv.1) = false) →
      (∀ cv ∈ dyn, (kClinic == cv.1) = false) →
      (∀ cv ∈ dyn, (kName == cv.1) = false) →
      (dyn.map Prod.fst).Nodup →
      List.lookup kRowId (newRowAt day clinic rid form dyn i) = some rid ∧
      List.lookup kDay (newRowAt day clinic rid form dyn i) = some day ∧
      List.lookup kClinic (newRowAt day clinic rid form dyn i) = some clinic ∧
      List.lookup kName (newRowAt day clinic rid form dyn i) =
        some (form.names.getD i []) ∧
      ∀ cv ∈ dyn, List.lookup cv.1 (newRowAt day clinic rid form dyn i) =
        some (cv.2.getD i [])) ∧
    (∀ (day clinic : Str) (form : EditForm) (dyn : List (Str × List Str))
      (fresh : Nat → Str) (rows : List Row) (rid : Str) (i : Nat),
      (∀ cv ∈ dyn, (kRowId == cv.1) = false) →
      i < form.names.length →
      form.row_ids.getD i [] = rid →
      rid ≠ [] →
      form.delete_flags.getD i [] = "1".data →
      (∀ j, j < form.names.length → j ≠ i → form.row_ids.getD j [] ≠ rid) →
      (∀ j, j < form.names.length → fresh j ≠ rid) →
      ∀ r ∈ saveRows day clinic form dyn fresh rows,
        List.lookup kRowId r ≠ some rid) := by
  refine ⟨?_, ?_, ?_⟩
  · intro day clinic form dyn fresh rows rid i
      hdynrow hi htr hrne hflag huniq hfresh hunknown
    unfold saveRows
    rw [range_split hi, List.foldl_append, List.foldl_cons]
    have hN1 : ∀ r ∈ (List.range' 0 i).foldl (saveStep day clinic form dyn fresh) rows,
        List.lookup kRowId r ≠ some rid := by
      refine foldSteps_N hdynrow (List.range' 0 i) rows ?_ hunknown
      intro j hj
      have hb := List.mem_range'_1.mp hj
      exact ⟨huniq j (by omega) (by omega), hfresh j (by omega)⟩
    have hM := @saveStep_M_establish day clinic form dyn fresh _ i rid
      htr hrne hflag hN1
    refine foldSteps_M (lookup_newRowAt_rowId hdynrow)
      (List.range' (i + 1) (form.names.length - i - 1)) _ ?_ hM
    intro j hj
    have hb := List.mem_range'_1.mp hj
    exact huniq j (by omega) (by omega)
  · intro day clinic rid form dyn i hdynrow hdday hdclinic hdname hnd
    refine ⟨lookup_newRowAt_rowId hdynrow, ?_, ?_, ?_, ?_⟩
    · rw [lookup_newRowAt_core hdday]
      rw [lookup_cons_ne _ _ (by decide)]
      exact lookup_cons_eq _ _ _
    · rw [lookup_newRowAt_core hdclinic]
      rw [lookup_cons_ne _ _ (by decide), lookup_cons_ne _ _ (by decide)]
      exact lookup_cons_eq _ _ _
    · rw [lookup_newRowAt_core hdname]
      rw [lookup_cons_ne _ _ (by decide), lookup_cons_ne _ _ (by decide),
        lookup_cons_ne _ _ (by decide)]
      exact lookup_cons_eq _ _ _
    · intro cv hcv
      exact lookup_newRowAt_dyn hnd hcv
  · intro day clinic form dyn fresh rows rid i
      hdynrow hi htr hrne hflag huniq hfresh
    unfold saveRows
    rw [range_split hi, List.foldl_append, List.foldl_cons]
    refine foldSteps_N hdynrow (List.range' (i + 1) (form.names.length - i - 1)) _
      ?_ (saveStep_N_establish htr hrne hflag)
    intro j hj
    have hb := List.mem_range'_1.mp hj
    exact ⟨huniq j (by omega) (by omega), hfresh j (by omega)⟩

/-- Witness for c8_unknown_rowid_appends: a form submitting one row with
unknown row_id r9 for a sheet holding only r1 appends the new record
(carrying Monday / Red Ball Clinic / Name "B" / camp1 "y"); a form
delete-flagging r1 leaves no record with row_id r1. -/
theorem c8_witness :
    (newRowAt "Monday".data "Red Ball Clinic".data "r9".data
        ⟨["B".data], ["7".data], ["P".data], [[]], [[]], ["r9".data], [[]]⟩
        [("camp1".data, ["y".data])] 0 ∈
      saveRows "Monday".data "Red Ball Clinic".data
        ⟨["B".data], ["7".data], ["P".data], [[]], [[]], ["r9".data], [[]]⟩
        [("camp1".data, ["y".data])] (fun _ => "u0".data)
        [[(kRowId, "r1".data), (kName, "A".data)]]) ∧
    (List.lookup kDay (newRowAt "Monday".data "Red Ball Clinic".data "r9".data
        ⟨["B".data], ["7".data], ["P".data], [[]], [[]], ["r9".data], [[]]⟩
        [("camp1".data, ["y".data])] 0) = some "Monday".data) ∧
    (∀ r ∈ saveRows "Monday".data "Red Ball Clinic".data
        ⟨["B".data], ["7".data], ["P".data], [[]], [[]], ["r1".data], ["1".data]⟩
        [] (fun _ => "u0".data)
        [[(kRowId, "r1".data), (kName, "A".data)]],
      List.lookup kRowId r ≠ some "r1".data) := by
  refine ⟨?_, ?_, ?_⟩
  · exact c8_unknown_rowid_appends.1 "Monday".data "Red Ball Clinic".data
      ⟨["B".data], ["7".data], ["P".data], [[]], [[]], ["r9".data], [[]]⟩
      [("camp1".data, ["y".data])] (fun _ => "u0".data)
      [[(kRowId, "r1".data), (kName, "A".data)]] "r9".data 0
      (by decide) (by decide) (by decide) (by decide) (by decide) (by decide)
      (by decide) (by decide)
  · exact (c8_unknown_rowid_appends.2.1 "Monday".data "Red Ball Clinic".data
      "r9".data ⟨["B".data], ["7".data], ["P".data], [[]], [[]], ["r9".data], [[]]⟩
      [("camp1".data, ["y".data])] 0
      (by decide) (by decide) (by decide) (by decide) (by decide)).2.1
  · exact c8_unknown_rowid_appends.2.2 "Monday".data "Red Ball Clinic".data
      ⟨["B".data], ["7".data], ["P".data], [[]], [[]], ["r1".data], ["1".data]⟩
      [] (fun _ => "u0".data)
      [[(kRowId, "r1".data), (kName, "A".data)]] "r1".data 0
      (by decide) (by decide) (by decide) (by decide) (by decide) (by decide)
      (by decide)
